import Mathlib

/-!
Verification of the wxWidgets path-manipulation (`wxFileName`,
`src/common/filename.cpp`) and locale-identifier (`wxLocaleIdent`,
`src/common/uilocale.cpp`) utility subsystems.

Strings are modelled as `List Char` (`Str`).  `wxString` operations used by
the code under study (`find_last_of`, `BeforeFirst`, `Mid`, `Lower`, ...)
are given their documented semantics on this representation.  Machine
integers do not overflow in any of the modelled code paths (all lengths and
positions are sizes of in-memory strings), so positions are `Nat` and the
C++ `npos` is modelled by `Option Nat`.

Build configuration: the repository is built here for a Unix (non-Windows,
non-VMS) target, so `wxPATH_NATIVE` resolves to `wxPATH_UNIX`
(`wxFileName::GetFormat`, filename.cpp:2391), `__WINDOWS__`-only blocks are
absent and `wxHAVE_LSTAT`-style blocks do not affect the functions below.
-/

/-- Strings as explicit character lists. -/
abbrev Str := List Char

/-- Coercion from Lean string literals to `Str`. -/
def str (s : String) : Str := s.data

/-- First index `i ≥ start` such that `p (s[i])`, as in
`wxString::find_first_of(chars, start)`; `none` models `npos`. -/
def findFrom (p : Char → Bool) : Str → Nat → Option Nat
  | [], _ => none
  | c :: cs, 0 => if p c then some 0 else (findFrom p cs 0).map (· + 1)
  | _ :: cs, n + 1 => (findFrom p cs n).map (· + 1)

/-- `wxString::find_first_of` from position 0. -/
def findFirst (p : Char → Bool) (s : Str) : Option Nat := findFrom p s 0

/-- Index of the last character satisfying `p`, as in
`wxString::find_last_of`; `none` models `npos`. -/
def findLast (p : Char → Bool) : Str → Option Nat
  | [] => none
  | c :: cs =>
    match findLast p cs with
    | some i => some (i + 1)
    | none => if p c then some 0 else none

/-- `s.Left n` / `substr(0, n)`: the first `n` characters. -/
def leftS (n : Nat) (s : Str) : Str := s.take n

/-- `s.Mid n` / `substr(n)`: everything from position `n` on. -/
def midS (n : Nat) (s : Str) : Str := s.drop n

/-- `s.Mid start count`: `count` characters starting at `start`. -/
def midCount (start count : Nat) (s : Str) : Str := (s.drop start).take count

/-- `startsWith`: `p` is an initial segment of `s`. -/
def leadsWith : Str → Str → Bool
  | [], _ => true
  | _ :: _, [] => false
  | p :: ps, c :: cs => p == c && leadsWith ps cs

/-- ASCII lower-casing of a whole string (`wxString::Lower`). -/
def lowerS (s : Str) : Str := s.map Char.toLower

/-- ASCII upper-casing of a whole string (`wxString::Upper`). -/
def upperS (s : Str) : Str := s.map Char.toUpper

/-- `wxString::Capitalize`: first character upper-cased, the rest
lower-cased. -/
def capitalizeS : Str → Str
  | [] => []
  | c :: cs => Char.toUpper c :: lowerS cs

/-- `wxString::CmpNoCase(t) == 0`: equality up to ASCII case. -/
def cmpNoCaseEq (s t : Str) : Bool := lowerS s == lowerS t

/-- `wxString::IsSameAs(t, withCase)`: `Cmp` when `withCase`, otherwise
`CmpNoCase`. -/
def isSameAs (s t : Str) (withCase : Bool) : Bool :=
  if withCase then s == t else cmpNoCaseEq s t

/-- `wxString::BeforeFirst(ch, &rest)`: the part before the first `ch`
(the whole string if absent) paired with the part after it (empty if
absent). -/
def beforeFirstC (ch : Char) (s : Str) : Str × Str :=
  match findFirst (· == ch) s with
  | none => (s, [])
  | some i => (s.take i, s.drop (i + 1))

/-- `wxString::BeforeLast(ch, &rest)`: the part before the last `ch`
(empty if absent) paired with the part after it (empty if absent). -/
def beforeLastC (ch : Char) (s : Str) : Str × Str :=
  match findLast (· == ch) s with
  | none => ([], [])
  | some i => (s.take i, s.drop (i + 1))

/-- `wxString::Replace(from, to)` for single characters. -/
def replaceChar (a b : Char) (s : Str) : Str :=
  s.map fun c => if c == a then b else c

/-- Fields of `s` split at every character satisfying `p` (a split with
`n` separators yields `n + 1` fields, empty fields included). -/
def splitFields (p : Char → Bool) : Str → List Str
  | [] => [[]]
  | c :: cs =>
    if p c then [] :: splitFields p cs
    else
      match splitFields p cs with
      | [] => [[c]]
      | f :: fs => (c :: f) :: fs

/-- `wxSplit(str, sep, '\x7b'escape disabled'\x7d')` (wx/arrstr.h, not under
src/): plain field splitting, except that an empty input yields no fields
at all. -/
def wxSplit (sep : Char) (s : Str) : List Str :=
  if s.isEmpty then [] else splitFields (· == sep) s

/-- `wxStringTokenizer` in `wxTOKEN_RET_EMPTY` mode (wx/tokenzr.h, not
under src/, the mode selected by `wxTOKEN_DEFAULT` for non-whitespace
delimiters): all fields are returned except trailing empty ones; a string
of delimiters only yields a single leading empty token. -/
def tokenizeRE (delims : Str) (s : Str) : List Str :=
  if s.isEmpty then []
  else
    let fields := splitFields (delims.contains ·) s
    let trimmed := (fields.reverse.dropWhile List.isEmpty).reverse
    if trimmed.isEmpty then [[]] else trimmed

/-! ## Path formats (`wxPathFormat`, `wxFileName`) -/

/-- `wxPathFormat` (without the sentinel `wxPATH_MAX`). -/
inductive PathFormat where
  | native
  | unix
  | mac
  | dos
  | vms
  deriving DecidableEq, Repr

/-- `wxFileName::GetFormat`: resolve `wxPATH_NATIVE`; on this (non-Windows,
non-VMS) build it resolves to `wxPATH_UNIX` (filename.cpp:2391). -/
def getFormat : PathFormat → PathFormat
  | .native => .unix
  | f => f

/-- `wxFileName::GetVolumeSeparator` (filename.cpp:1941): `':'`
(`wxFILE_SEP_DSK`) for DOS and VMS, empty otherwise. -/
def getVolumeSeparator (format : PathFormat) : Str :=
  if getFormat format = .dos ∨ getFormat format = .vms then [':'] else []

/-- `wxFileName::GetPathSeparators` (filename.cpp:1956). -/
def getPathSeparators (format : PathFormat) : Str :=
  match getFormat format with
  | .dos => ['\\', '/']
  | .mac => [':']
  | .vms => ['.']
  | _ => ['/']

/-- `wxFileName::GetPathTerminators` (filename.cpp:1988): `']'` under VMS,
the path separators otherwise. -/
def getPathTerminators (format : PathFormat) : Str :=
  if getFormat format = .vms then [']'] else getPathSeparators format

/-- `wxFileName::IsPathSeparator` (filename.cpp:1998).  The NUL special
case of the C++ code is vacuous here since NUL is in no separator list. -/
def isPathSep (ch : Char) (format : PathFormat) : Bool :=
  (getPathSeparators format).contains ch

/-- `IsDOSPathSep` (filename.cpp:291): slash or backslash. -/
def isDOSPathSep (ch : Char) : Bool := ch == '\\' || ch == '/'

/-- `IsUNCPath` (filename.cpp:297): at least three characters, the first
two (back)slashes, the third not. -/
def isUNCPath : Str → Bool
  | a :: b :: c :: _ => isDOSPathSep a && isDOSPathSep b && !isDOSPathSep c
  | _ => false

/-- `wxMSW_EXTENDED_PATH_PREFIX` (filename.cpp:138): `\\?\`. -/
def mswExtendedPathPfx : Str := ['\\', '\\', '?', '\\']

/-- Overwrite the first two characters with backslashes, as done to
normalize a UNC volume (filename.cpp:2490). -/
def setFirstTwoBackslash : Str → Str
  | _ :: _ :: rest => '\\' :: '\\' :: rest
  | s => s

/-- `wxFileName::SplitVolume` (filename.cpp:2429): the volume part and the
remaining path. -/
def splitVolume (fullpath : Str) (format : PathFormat) : Str × Str :=
  match getFormat format with
  | .dos =>
    if leadsWith mswExtendedPathPfx fullpath then
      -- extended-length path: volume extends to the next backslash
      match findFrom (· == '\\') fullpath 4 with
      | some posNextSep => (fullpath.take posNextSep, fullpath.drop posNextSep)
      | none => (fullpath, ['\\'])
    else if isUNCPath fullpath then
      match findFrom ((getPathTerminators .dos).contains ·) fullpath 3 with
      | some posFirstSlash =>
        (setFirstTwoBackslash (fullpath.take posFirstSlash), fullpath.drop posFirstSlash)
      | none => (setFirstTwoBackslash fullpath, [])
    else
      -- shared DOS/VMS colon logic (the DOS case falls through)
      match findFirst (· == ':') fullpath with
      | some posFirstColon =>
        if posFirstColon = 0 then ([], fullpath)
        else (fullpath.take posFirstColon, fullpath.drop (posFirstColon + 1))
      | none => ([], fullpath)
  | .vms =>
    match findFirst (· == ':') fullpath with
    | some posFirstColon =>
      if posFirstColon = 0 then ([], fullpath)
      else (fullpath.take posFirstColon, fullpath.drop (posFirstColon + 1))
    | none => ([], fullpath)
  | _ => ([], fullpath)

/-- Result of `wxFileName::SplitPath`. -/
structure SplitResult where
  volume : Str
  path : Str
  name : Str
  ext : Str
  hasExt : Bool
  deriving DecidableEq, Repr

/-- Position of the last `.` in the volume-stripped path, after the two
nullification rules of `wxFileName::SplitPath` (filename.cpp:2554-2577):
a dot at the very beginning of a path component (preceded by nothing, by a
native path separator -- the default `format` argument of
`IsPathSeparator` declared in wx/filename.h is `wxPATH_NATIVE` -- or,
under VMS, by `']'`) does not start an extension, and neither does a dot
lying before the last path terminator. -/
def posLastDotOf (fullpath : Str) (format : PathFormat) : Option Nat :=
  let posLastDot := findLast (· == '.') fullpath
  let posLastSlash := findLast ((getPathTerminators format).contains ·) fullpath
  let posLastDot :=
    match posLastDot with
    | some i =>
      if i = 0 ∨ isPathSep (fullpath.getD (i - 1) ' ') .native ∨
          (getFormat format = .vms ∧ fullpath.getD (i - 1) ' ' = ']') then
        none
      else some i
    | none => none
  match posLastDot, posLastSlash with
  | some i, some j => if i < j then none else some i
  | r, _ => r

/-- Position of the last path terminator in the volume-stripped path. -/
def posLastSlashOf (fullpath : Str) (format : PathFormat) : Option Nat :=
  findLast ((getPathTerminators format).contains ·) fullpath

/-- `wxFileName::SplitPath` (filename.cpp:2541), six-argument form. -/
def splitPath (fullpathWithVolume : Str) (format : PathFormat) : SplitResult :=
  let format := getFormat format
  let volume := (splitVolume fullpathWithVolume format).1
  let fullpath := (splitVolume fullpathWithVolume format).2
  let posLastDot := posLastDotOf fullpath format
  let posLastSlash := posLastSlashOf fullpath format
  let path :=
    match posLastSlash with
    | none => []
    | some len =>
      let len := if len = 0 ∧ format ≠ .mac then 1 else len
      let p := fullpath.take len
      -- special VMS hack: remove the initial bracket
      if format = .vms ∧ p.getD 0 ' ' = '[' then p.drop 1 else p
  let name :=
    let nStart := match posLastSlash with | none => 0 | some i => i + 1
    match posLastDot, posLastSlash with
    | none, _ => fullpath.drop nStart
    | some d, none => (fullpath.drop nStart).take d
    | some d, some s => (fullpath.drop nStart).take (d - s - 1)
  match posLastDot with
  | none => ⟨volume, path, name, [], false⟩
  | some d => ⟨volume, path, name, fullpath.drop (d + 1), true⟩

/-! ## The `wxFileName` state -/

/-- The fields of a `wxFileName` object relevant to path manipulation
(`m_dontFollowLinks` plays no role in the functions studied here). -/
structure FileName where
  volume : Str := []
  dirs : List Str := []
  name : Str := []
  ext : Str := []
  relative : Bool := true
  hasExt : Bool := false
  deriving DecidableEq, Repr

/-- A default-constructed `wxFileName` (`wxFileName::Clear`). -/
def FileName.clear : FileName := {}

/-- One step of the tokenizer loop of `wxFileName::DoSetPath`
(filename.cpp:494-510): empty tokens become `".."` under Mac and are
dropped under the other formats. -/
def addPathToken (format : PathFormat) (dirs : List Str) (token : Str) : List Str :=
  if token.isEmpty then
    if format = .mac then dirs ++ [str ".."] else dirs
  else dirs ++ [token]

/-- `wxFileName::DoSetPath` (filename.cpp:408).  `mayHaveVolume` is the
`SetPath_MayHaveVolume` flag. -/
def doSetPath (st : FileName) (pathOrig : Str) (format : PathFormat)
    (mayHaveVolume : Bool) : FileName :=
  let st := { st with dirs := [] }
  if pathOrig.isEmpty then { st with relative := true }
  else
    let format := getFormat format
    let volume := if mayHaveVolume then (splitVolume pathOrig format).1 else []
    let path := if mayHaveVolume then (splitVolume pathOrig format).2 else pathOrig
    let st :=
      if ¬volume.isEmpty then { st with relative := false, volume := volume } else st
    if mayHaveVolume ∧ path.isEmpty then st  -- we had only the volume
    else
      let leadingChar := path.getD 0 ' '
      let relative :=
        match format with
        | .mac => leadingChar == ':'
        | .vms => false
        | .dos => !isPathSep leadingChar .dos
        | _ => leadingChar != '/'
      -- under Mac a leading ":" (relative path marker) is removed
      let path := if format = .mac ∧ leadingChar = ':' then path.drop 1 else path
      let tokens := tokenizeRE (getPathSeparators format) path
      { st with relative := relative, dirs := tokens.foldl (addPathToken format) [] }

/-- `wxFileName::SetPath` (filename.cpp:402). -/
def setPath (st : FileName) (path : Str) (format : PathFormat) : FileName :=
  doSetPath st path format true

/-- `wxFileName::Assign(volume, path, name, ext, hasExt, format)`
(filename.cpp:382): the path is parsed with `SetPath_PathOnly`. -/
def assignComponents (st : FileName) (volume path name ext : Str) (hasExt : Bool)
    (format : PathFormat) : FileName :=
  let st := doSetPath st path format false
  { st with volume := volume, ext := ext, name := name, hasExt := hasExt }

/-- `wxFileName::Assign(fullpath, format)` (filename.cpp:513). -/
def assignFullPath (st : FileName) (fullpath : Str) (format : PathFormat) : FileName :=
  let r := splitPath fullpath format
  assignComponents st r.volume r.path r.name r.ext r.hasExt format

/-- `wxEndsWithPathSeparator` (wx/filefn.h, not under src/): on a Unix
build `wxIsPathSeparator` recognizes only `'/'` (`wxFILE_SEP_PATH`). -/
def endsWithPathSep (s : Str) : Bool :=
  !s.isEmpty && s.getLastD ' ' == '/'

/-- `wxFileName::GetPathSeparator(format)` (wx/filename.h, not under src/):
the first, canonical, character of `GetPathSeparators(format)`. -/
def getPathSeparator (format : PathFormat) : Char :=
  (getPathSeparators format).getD 0 '/'

/-- `wxFileName::Assign(fullpathOrig, fullname, format)`
(filename.cpp:523): the first argument is forced to be a directory by
appending a separator, then both halves are split and recombined.  The
debug-build consistency assertions are no-ops here. -/
def assignDirAndName (st : FileName) (fullpathOrig fullname : Str)
    (format : PathFormat) : FileName :=
  let fullpath :=
    if ¬fullpathOrig.isEmpty ∧ ¬endsWithPathSep fullpathOrig then
      fullpathOrig ++ [getPathSeparator format]
    else fullpathOrig
  let rName := splitPath fullname format
  let rPath := splitPath fullpath format
  assignComponents st rPath.volume rPath.path rName.name rName.ext rName.hasExt format

/-- `wxFileName::AssignDir` (filename.cpp:569). -/
def assignDir (st : FileName) (dir : Str) (format : PathFormat) : FileName :=
  assignDirAndName st dir [] format

/-- `wxFileName::DirName` (filename.cpp:598). -/
def dirName (dir : Str) (format : PathFormat) : FileName :=
  assignDir FileName.clear dir format

/-- `wxFileName::IsCaseSensitive` (filename.cpp:1899): only Unix paths. -/
def isCaseSensitive (format : PathFormat) : Bool :=
  getFormat format = .unix

/-- `wxFileName::HasVolume` (wx/filename.h, not under src/). -/
def FileName.hasVolume (st : FileName) : Bool := !st.volume.isEmpty

/-- `wxFileName::IsOk` (wx/filename.h, not under src/).  Modelled from the
spec: a filename is initialized once it has directories, a name, an
extension, or is marked absolute; a default-constructed object is not. -/
def FileName.isOk (st : FileName) : Bool :=
  !st.dirs.isEmpty || !st.name.isEmpty || !st.relative || !st.ext.isEmpty

/-- `wxFileName::IsDir` (wx/filename.h, not under src/): no name and no
extension. -/
def FileName.isDir (st : FileName) : Bool :=
  st.name.isEmpty && st.ext.isEmpty

/-- `wxFileName::IsAbsolute` (filename.cpp:1754). -/
def isAbsolute (st : FileName) (format : PathFormat) : Bool :=
  -- unix paths beginning with ~ are reported as being absolute
  if format = .unix ∧ (st.dirs.headD []).getD 0 ' ' = '~' ∧ ¬st.dirs.isEmpty then
    true
  else if st.relative then false
  else if ¬(getVolumeSeparator format).isEmpty ∧ st.volume.isEmpty then false
  else true

/-- The file-system environment a `wxFileName` normalization runs in:
`cwd vol` is `wxFileName::GetCwd(vol)` (the working directory, on the
drive `vol` when non-empty), `userHome u` is `wxGetUserHome(u)`. -/
structure FsEnv where
  cwd : Str → Str
  userHome : Str → Str

/-- The `wxPATH_NORM_XXX` flags handled on this build
(`wxPATH_NORM_ENV_VARS` is never passed by the functions studied here, and
`wxPATH_NORM_SHORTCUT`/`wxPATH_NORM_LONG` only act under `__WINDOWS__`). -/
structure NormFlags where
  dots : Bool := false
  absolute : Bool := false
  tilde : Bool := false
  long : Bool := false
  caseNorm : Bool := false

/-- One step of the `"."`/`".."` loop of `wxFileName::Normalize`
(filename.cpp:1507-1546), acting on the accumulated `m_dirs`. -/
def normalizeDirsStep (withDots relative : Bool) (dirs : List Str) (dir : Str) :
    List Str :=
  if withDots then
    if dir = str "." then dirs
    else if dir = str ".." then
      if dirs.isEmpty then
        if relative then dirs ++ [dir] else dirs
      else if dirs.getLastD [] ≠ str ".." then dirs.dropLast
      else dirs ++ [dir]
    else dirs ++ [dir]
  else dirs ++ [dir]

/-- `wxFileName::Normalize` (filename.cpp:1420) for the flag subset of
`NormFlags`; it always returns `true`, so only the resulting state is
modelled.  `curDir.AssignDir(...)` calls use the defaulted
`wxPATH_NATIVE` format of `AssignDir`'s declaration. -/
def normalizePath (env : FsEnv) (flags : NormFlags) (cwd : Str) (format : PathFormat)
    (st : FileName) : FileName :=
  let format := getFormat format
  -- set up the directory to use for making the path absolute later
  let curDir : FileName :=
    if flags.absolute ∧ ¬isAbsolute st format then
      if cwd.isEmpty then assignDir FileName.clear (env.cwd st.volume) .native
      else assignDir FileName.clear cwd .native
    else FileName.clear
  -- handle ~ stuff under Unix only
  let dir0 := st.dirs.headD []
  let tilde := format = .unix ∧ flags.tilde ∧ st.relative ∧ ¬st.dirs.isEmpty ∧
    ¬dir0.isEmpty ∧ dir0.getD 0 ' ' = '~'
  let curDir :=
    if tilde then assignDir FileName.clear (env.userHome (dir0.drop 1)) .native
    else curDir
  let dirs := if tilde then st.dirs.tail else st.dirs
  -- transform relative path into abs one
  let volTransfer := curDir.isOk ∧ ¬st.hasVolume ∧ curDir.hasVolume
  let st := if volTransfer then { st with volume := curDir.volume } else st
  -- curDir is cleared when only the volume was missing from an otherwise
  -- absolute path
  let curDir := if volTransfer ∧ ¬st.relative then FileName.clear else curDir
  let dirs := if curDir.isOk then curDir.dirs ++ dirs else dirs
  let st :=
    if curDir.isOk ∧ ¬curDir.relative then { st with relative := false } else st
  -- now deal with ".", ".." and the rest
  let st := { st with dirs := dirs.foldl (normalizeDirsStep flags.dots st.relative) [] }
  -- change case (wxPATH_NORM_CASE)
  if flags.caseNorm ∧ ¬isCaseSensitive format then
    { st with volume := lowerS st.volume, name := lowerS st.name,
              ext := lowerS st.ext, dirs := st.dirs.map lowerS }
  else st

/-- `wxFileName::MakeAbsolute` (wx/filename.h, not under src/).  Modelled
from the spec: making the path absolute with respect to `cwd` is
`Normalize(wxPATH_NORM_DOTS | wxPATH_NORM_ABSOLUTE | wxPATH_NORM_TILDE,
cwd, format)`. -/
def makeAbsolute (env : FsEnv) (st : FileName) (cwd : Str) (format : PathFormat) :
    FileName :=
  normalizePath env { dots := true, absolute := true, tilde := true } cwd format st

/-- Drop the common leading directories of the two lists, as in the loop
of `wxFileName::MakeRelativeTo` (filename.cpp:1813-1818). -/
def dropCommonDirs (withCase : Bool) : List Str → List Str → List Str × List Str
  | d :: ds, b :: bs =>
    if isSameAs d b withCase then dropCommonDirs withCase ds bs
    else (d :: ds, b :: bs)
  | ds, bs => (ds, bs)

/-- `wxFileName::MakeRelativeTo` (filename.cpp:1784): the boolean result
paired with the updated object. -/
def makeRelativeTo (env : FsEnv) (st : FileName) (pathBase : Str)
    (format : PathFormat) : Bool × FileName :=
  let fnBase := dirName pathBase format
  let cwd := env.cwd []
  -- bring both paths to canonical form
  let st := makeAbsolute env st cwd format
  let fnBase := makeAbsolute env fnBase cwd format
  -- done for compatibility; a no-op on this build apart from rebuilding dirs
  let st := normalizePath env { long := true } cwd format st
  let fnBase := normalizePath env { long := true } cwd format fnBase
  let withCase := isCaseSensitive format
  if ¬isSameAs st.volume fnBase.volume withCase then
    (false, st)  -- nothing done
  else
    let st := { st with volume := [] }
    let common := dropCommonDirs withCase st.dirs fnBase.dirs
    let dirs := List.replicate common.2.length (str "..") ++ common.1
    let dirs :=
      match getFormat format with
      | .unix | .dos =>
        if dirs.isEmpty ∧ st.isDir then [str "."] else dirs
      | _ => dirs
    (true, { st with dirs := dirs, relative := true })

/-! ## Locale identifiers (`wxLocaleIdent`, uilocale.cpp) -/

/-- The fields of a `wxLocaleIdent`. -/
structure LocaleIdent where
  language : Str := []
  script : Str := []
  region : Str := []
  charset : Str := []
  modifier : Str := []
  extension : Str := []
  sortorder : Str := []
  tag : Str := []
  deriving DecidableEq, Repr, Inhabited

/-- An invalid (default-constructed) `wxLocaleIdent`. -/
def LocaleIdent.empty : LocaleIdent := {}

/-- The locale database environment: the lookups performed by
`wxUILocaleImpl::GetScriptNameFromAlias` / `GetScriptAliasFromName` /
`GetLikelySubtags` / `GetMatchDistance` / `SameRegionGroup` and
`wxUILocale::FindLanguageInfo` (returning the found entry's `LocaleTag`),
whose data tables live outside src/.  An empty string result models a
failed lookup, `none` models a null `wxLanguageInfo` pointer. -/
structure LocEnv where
  scriptNameFromAlias : Str → Str
  scriptAliasFromName : Str → Str
  likelySubtags : Str → Str
  matchDistance : Str → Str → Int
  sameRegionGroup : Str → Str → Str → Bool
  findLanguageInfo : Str → Option Str

/-- `IsDefaultCLocale` (uilocale.cpp:64): `"C"` or `"POSIX"`, case
insensitively. -/
def isDefaultCLocale (locale : Str) : Bool :=
  cmpNoCaseEq locale (str "C") || cmpNoCaseEq locale (str "POSIX")

/-- `validCharsAlpha` membership (uilocale.cpp:46). -/
def isAlphaCh (c : Char) : Bool := c.isAlpha

/-- `validCharsAlnum` membership (uilocale.cpp:47). -/
def isAlnumCh (c : Char) : Bool := c.isAlphanum

/-- `validCharsModExt` membership (uilocale.cpp:48). -/
def isModExtCh (c : Char) : Bool := c.isAlphanum || c == '-'

/-- `wxLocaleIdent::Language` (uilocale.cpp:606). -/
def setLanguage (st : LocaleIdent) (language : Str) : LocaleIdent :=
  if isDefaultCLocale language then { st with language := upperS language }
  else if (language.length = 2 ∨ language.length = 3) ∧ language.all isAlphaCh then
    { st with language := lowerS language }
  else { st with language := [] }

/-- `wxLocaleIdent::Region` (uilocale.cpp:624). -/
def setRegion (st : LocaleIdent) (region : Str) : LocaleIdent :=
  if (region.length = 2 ∨ region.length = 3) ∧ region.all isAlnumCh then
    { st with region := upperS region }
  else { st with region := [] }

/-- `wxLocaleIdent::Script` (uilocale.cpp:638). -/
def setScript (env : LocEnv) (st : LocaleIdent) (script : Str) : LocaleIdent :=
  if script.length = 4 ∧ script.all isAlphaCh then
    { st with script := capitalizeS script }
  else if ¬script.isEmpty then
    { st with script := env.scriptNameFromAlias (lowerS script) }
  else { st with script := [] }

/-- `wxLocaleIdent::Charset` (uilocale.cpp:657). -/
def setCharset (st : LocaleIdent) (charset : Str) : LocaleIdent :=
  if charset.all isModExtCh then { st with charset := charset }
  else { st with charset := [] }

/-- `wxLocaleIdent::Modifier` (uilocale.cpp:670). -/
def setModifier (st : LocaleIdent) (modifier : Str) : LocaleIdent :=
  if modifier.all isModExtCh then { st with modifier := modifier }
  else { st with modifier := [] }

/-- `wxLocaleIdent::Extension` (uilocale.cpp:683); an invalid argument
leaves the field unchanged. -/
def setExtension (st : LocaleIdent) (extension : Str) : LocaleIdent :=
  if extension.all isModExtCh then { st with extension := extension } else st

/-- `wxLocaleIdent::SortOrder` (uilocale.cpp:693); an invalid argument
leaves the field unchanged. -/
def setSortOrder (st : LocaleIdent) (sortorder : Str) : LocaleIdent :=
  if sortorder.length > 4 ∧ sortorder.all isAlphaCh then
    { st with sortorder := sortorder }
  else st

/-- `CheckLanguageVariant` (uilocale.cpp:52): sync the `valencia` variant
between modifier and extension. -/
def checkLanguageVariant (st : LocaleIdent) : LocaleIdent :=
  if st.modifier == str "valencia" then setExtension st st.modifier
  else if st.extension == str "valencia" && st.modifier.isEmpty then
    setModifier st st.extension
  else st

/-- The last steps of `wxLocaleIdent::FromTag` (uilocale.cpp:242-277):
the region when a script came first, collection of the remaining parts
into the extension, and the variant check. -/
def fromTagAfterFirstSubtag (st : LocaleIdent) (rest : List Str) : LocaleIdent :=
  match rest with
  | [] => checkLanguageVariant st
  | p :: rest' =>
    if st.region.isEmpty ∧ (p.length = 2 ∨ p.length = 3) then
      match rest' with
      | [] => checkLanguageVariant { st with region := upperS p }
      | q :: qs =>
        checkLanguageVariant
          { st with region := upperS p,
                    extension := List.intercalate (str "-") (q :: qs) }
    else
      checkLanguageVariant
        { st with extension := List.intercalate (str "-") (p :: rest') }

/-- Step 2 of `wxLocaleIdent::FromTag` (uilocale.cpp:180-277): parse the
remaining tag `tagMain` as a BCP47-like identifier, on top of the
platform-specific attributes already collected in `locId`; `tag` is the
original full tag stored in the result. -/
def fromTagBcp47 (locId : LocaleIdent) (tagMain tag : Str) : LocaleIdent :=
  let parts := wxSplit '-' (replaceChar '_' '-' tagMain)
  match parts with
  | [] => LocaleIdent.empty
  | lang :: rest =>
    -- we have at least the language, so we return a valid object
    let locId := { locId with language := lowerS lang, tag := tag }
    match rest with
    | [] => locId
    | _ =>
      if lang.length = 2 ∨ lang.length = 3 then
        -- skip extlangs that are 3 letters long
        match rest.dropWhile (fun p => p.length = 3 ∧ ¬(p.getD 0 ' ').isDigit) with
        | [] => locId
        | p :: rest' =>
          if p.length = 2 ∨ p.length = 3 then
            fromTagAfterFirstSubtag { locId with region := upperS p } rest'
          else if p.length = 4 then
            fromTagAfterFirstSubtag { locId with script := capitalizeS p } rest'
          else LocaleIdent.empty  -- completely invalid
      else locId  -- private use, grandfathered or invalid: can't parse further

/-- `wxLocaleIdent::FromTag` (uilocale.cpp:91). -/
def fromTag (env : LocEnv) (tag : Str) : LocaleIdent :=
  -- 0. special locale identifiers "C" and "POSIX"
  if isDefaultCLocale tag then setLanguage LocaleIdent.empty tag
  else
    -- 1a. modifier in POSIX tag
    let tagMain := (beforeFirstC '@' tag).1
    let tagRest := (beforeFirstC '@' tag).2
    let locId :=
      if ¬tagRest.isEmpty then
        let script := env.scriptNameFromAlias tagRest
        if ¬script.isEmpty then setScript env LocaleIdent.empty script
        else setModifier LocaleIdent.empty tagRest
      else LocaleIdent.empty
    -- 1b. charset in POSIX tag
    let tagRest := (beforeFirstC '.' tagMain).2
    let tagMain := (beforeFirstC '.' tagMain).1
    let locId := if ¬tagRest.isEmpty then setCharset locId tagRest else locId
    -- 1c. Windows CRT language and region names
    let tagMain :=
      if (beforeFirstC '_' tagMain).1.length > 3 ∧
          ((beforeFirstC '_' tagMain).2.isEmpty ∨ (beforeFirstC '_' tagMain).2.length > 3) then
        match env.findLanguageInfo tagMain with
        | some localeTag => localeTag
        | none => tagMain
      else tagMain
    -- 1d. sort order in Windows tag
    let sortFound := ¬(beforeLastC '_' tagMain).1.isEmpty ∧
      (beforeLastC '_' tagMain).2.length > 4 ∧ locId.modifier.isEmpty ∧
      locId.charset.isEmpty
    let locId :=
      if sortFound then setSortOrder locId (beforeLastC '_' tagMain).2 else locId
    let tagMain := if sortFound then (beforeLastC '_' tagMain).1 else tagMain
    -- 2. remaining tag identifier is BCP47-like
    fromTagBcp47 locId tagMain tag

/-- Concatenation of two subtags with a dash, as built for the
`GetLikelySubtags` lookups. -/
def dashJoin (a b : Str) : Str := a ++ ['-'] ++ b

/-- `wxLocaleIdent::AddLikelySubtags` (uilocale.cpp:281).  The C++ code
indexes the split of a successful lookup at 1 and 2 relying on lookup
results always having three subtags; out-of-range access is modelled as
the empty string. -/
def addLikelySubtags (env : LocEnv) (localeIdent : LocaleIdent) : LocaleIdent :=
  let language := localeIdent.language
  let script := localeIdent.script
  let region := localeIdent.region
  if language.isEmpty then LocaleIdent.empty
  else if isDefaultCLocale language then localeIdent
  else
    -- 'Zzzz' and 'ZZ' represent an unknown script resp. region
    let script := if script == str "Zzzz" then [] else script
    let region := if region == str "ZZ" then [] else region
    if ¬script.isEmpty ∧ ¬region.isEmpty then localeIdent
    else
      let toTag := if ¬script.isEmpty then env.likelySubtags (dashJoin language script) else []
      let toTag :=
        if toTag.isEmpty ∧ ¬region.isEmpty then env.likelySubtags (dashJoin language region)
        else toTag
      let toTag := if toTag.isEmpty then env.likelySubtags language else toTag
      if toTag.isEmpty then LocaleIdent.empty
      else
        let subtags := wxSplit '-' toTag
        let locId := { localeIdent with tag := [] }
        let locId := if script.isEmpty then setScript env locId (subtags.getD 1 []) else locId
        let locId := if region.isEmpty then setRegion locId (subtags.getD 2 []) else locId
        locId

/-- `wxSubtags_XXX` (wx/uilocale.h). -/
inductive SubtagsFavour where
  | favourRegion
  | favourScript
  deriving DecidableEq, Repr

/-- `wxLocaleIdent::RemoveLikelySubtags` (uilocale.cpp:364). -/
def removeLikelySubtags (env : LocEnv) (localeIdent : LocaleIdent)
    (subtagsFavour : SubtagsFavour) : LocaleIdent :=
  let locId := addLikelySubtags env localeIdent
  if locId.language.isEmpty then locId
  else
    let language := locId.language
    let script := locId.script
    let region := locId.region
    let trial := setRegion (setScript env (setLanguage localeIdent language) []) []
    -- test "language"
    let locId := addLikelySubtags env trial
    if script == locId.script && region == locId.region then trial
    else
      -- test "language-region" resp. "language-script"
      let trial :=
        match subtagsFavour with
        | .favourRegion => setRegion trial region
        | .favourScript => setScript env trial script
      let locId := addLikelySubtags env trial
      if script == locId.script && region == locId.region then trial
      else
        -- test the other combination, cumulatively
        let trial :=
          match subtagsFavour with
          | .favourScript => setRegion trial region
          | .favourRegion => setScript env trial script
        let locId := addLikelySubtags env trial
        if script == locId.script && region == locId.region then trial
        else locId  -- no match: the full identifier

/-- The default value of `RemoveLikelySubtags`' second argument
(wx/uilocale.h, not under src/).  Modelled from the spec: region subtags
are favoured by default. -/
def favourDefault : SubtagsFavour := .favourRegion

/-- `wxLocaleTagType` (wx/uilocale.h). -/
inductive TagType where
  | dflt
  | system
  | bcp47
  | macos
  | posix
  | windows
  deriving DecidableEq, Repr

/-- `wxLocaleIdent::GetName` (wx/uilocale.h, not under src/).  Modelled
from the spec: the POSIX-style name `language[_region]`. -/
def localeName (locId : LocaleIdent) : Str :=
  locId.language ++ (if ¬locId.region.isEmpty then '_' :: locId.region else [])

/-- Append `sep` and `part` to `tag` when `part` is non-empty. -/
def appendOpt (tag : Str) (sep : Char) (part : Str) : Str :=
  if ¬part.isEmpty then tag ++ sep :: part else tag

/-- `wxLocaleIdent::GetTag` (uilocale.cpp:705). -/
def getTag (env : LocEnv) (locId : LocaleIdent) (tagType : TagType) : Str :=
  if tagType = .dflt ∧ ¬locId.tag.isEmpty then locId.tag
  else
    let tag := locId.language
    match tagType with
    | .bcp47 =>
      appendOpt (appendOpt (appendOpt tag '-' locId.script) '-' locId.region) '-'
        locId.extension
    | .macos => appendOpt (appendOpt tag '-' locId.script) '_' locId.region
    | .posix =>
      let maxTag := addLikelySubtags env locId
      let minTag := removeLikelySubtags env locId favourDefault
      let tag :=
        if ¬locId.region.isEmpty then tag ++ '_' :: locId.region
        else if ¬maxTag.region.isEmpty then tag ++ '_' :: maxTag.region
        else tag
      let tag := appendOpt tag '.' locId.charset
      if ¬minTag.script.isEmpty then
        appendOpt tag '@' (env.scriptAliasFromName locId.script)
      else appendOpt tag '@' locId.modifier
    | .windows =>
      appendOpt (appendOpt (appendOpt (appendOpt tag '-' locId.script) '-'
        locId.region) '-' locId.extension) '-' locId.sortorder
    | _ => localeName locId  -- wxLOCALE_TAGTYPE_SYSTEM and default

/-! ## Locale tag matching (`wxLocaleIdent::GetBestMatch`) -/

/-- `DISTANCE_INFINITY` (uilocale.cpp:431). -/
def distInfinity : Int := 1000

/-- The distance constants of `GetBestMatch` (uilocale.cpp:437-442),
computed from the match-distance table. -/
structure GbmConsts where
  langD : Int
  scriptD : Int
  regionD : Int
  regionGroupD : Int
  demotion : Int
  threshold : Int

/-- Compute the `GetBestMatch` distance constants from the environment. -/
def gbmConsts (env : LocEnv) : GbmConsts :=
  let langD := env.matchDistance (str "*") (str "*")
  let scriptD := env.matchDistance (str "*-*") (str "*-*")
  let regionD := env.matchDistance (str "*-*-*") (str "*-*-*") + 1
  let regionGroupD := env.matchDistance (str "*-*-*") (str "*-*-*")
  let demotion := env.matchDistance (str "en-*-*") (str "en-*-*") + 1
  ⟨langD, scriptD, regionD, regionGroupD, demotion, scriptD⟩

/-- The loop state of `GetBestMatch`: the supported-locale caches built
during the first outer iteration and the best-match bookkeeping
(`bestSupported = none` models the initial index `-1`). -/
structure GbmState where
  suppIn : List LocaleIdent := []
  suppMax : List LocaleIdent := []
  suppMinD : List Int := []
  bestSupported : Option Nat := none
  bestDistance : Int := distInfinity
  bestMinDistance : Int := distInfinity
  directMatch : Bool := false

/-- First-outer-pass registration of a supported tag (uilocale.cpp:492-505):
parse it, cache its maximised form and the minimal distance of its
minimised form. -/
def gbmRegister (env : LocEnv) (s : Str) (st : GbmState) : GbmState :=
  let sIn := fromTag env s
  let sMin := removeLikelySubtags env sIn favourDefault
  let minD : Int := (if ¬sMin.script.isEmpty then 1 else 0) +
    (if ¬sMin.region.isEmpty then 1 else 0)
  { st with suppIn := st.suppIn ++ [sIn],
            suppMax := st.suppMax ++ [addLikelySubtags env sIn],
            suppMinD := st.suppMinD ++ [minD] }

/-- The distance computation of `GetBestMatch` (uilocale.cpp:512-566)
between maximised desired `dMax` and supported `sMax`, starting from
`distance0` (the demotion-adjusted base plus one); returns the pair of
the accumulated distance and the supported minimal distance. -/
def gbmDistance (env : LocEnv) (cst : GbmConsts) (distance0 : Int)
    (dIn dMax sIn sMax : LocaleIdent) (supportedMinDistance : Int) : Int × Int :=
  if ¬dMax.language.isEmpty ∧ ¬sMax.language.isEmpty then
    if cmpNoCaseEq sMax.language dMax.language then
      -- language subtags equal
      let distance :=
        if ¬cmpNoCaseEq sMax.script dMax.script then
          let scriptDistance := env.matchDistance
            (dashJoin dMax.language dMax.script) (dashJoin sMax.language sMax.script)
          distance0 + (if scriptDistance ≥ 0 then scriptDistance else cst.scriptD)
        else distance0
      let distance :=
        if ¬cmpNoCaseEq sMax.region dMax.region then
          distance + (if env.sameRegionGroup dMax.language dMax.region sMax.region
                      then cst.regionGroupD else cst.regionD)
        else distance
      let supportedMinDistance := supportedMinDistance +
        (if ¬cmpNoCaseEq dIn.script sIn.script then 1 else 0) +
        (if ¬cmpNoCaseEq dIn.region sIn.region then 1 else 0)
      (distance, supportedMinDistance)
    else
      -- language subtags not equal
      let languageDistance := env.matchDistance dMax.language sMax.language
      let distance := distance0 +
        (if languageDistance ≥ 0 then languageDistance else cst.langD)
      let distance :=
        if ¬cmpNoCaseEq sMax.script dMax.script then
          let scriptDistance := env.matchDistance
            (dashJoin dMax.language dMax.script) (dashJoin sMax.language sMax.script)
          distance + (if scriptDistance ≥ 0 then scriptDistance else cst.scriptD)
        else distance
      let distance :=
        if ¬cmpNoCaseEq sMax.region dMax.region then distance + cst.regionD
        else distance
      (distance, supportedMinDistance)
  else
    -- language subtag undefined
    (distance0 + cst.langD + cst.scriptD + cst.regionD, supportedMinDistance)

/-- The body of the inner (supported) loop of `GetBestMatch`
(uilocale.cpp:481-585) for desired tag `dj` at index `j`, matched against
the supported tag `s` at index `k`. -/
def gbmStep (env : LocEnv) (cst : GbmConsts) (j : Nat) (dj : Str)
    (dIn dMax : LocaleIdent) (k : Nat) (s : Str) (st : GbmState) : GbmState :=
  let distance : Int := j * cst.demotion
  if cmpNoCaseEq dj s then
    -- direct match: the best match we can find
    let st :=
      if distance < st.bestDistance then
        { st with bestDistance := distance, bestSupported := some k }
      else st
    { st with directMatch := true }
  else
    let st := if j = 0 then gbmRegister env s st else st
    let dsm : Int × Int := gbmDistance env cst (distance + 1) dIn dMax
      (st.suppIn.getD k LocaleIdent.empty) (st.suppMax.getD k LocaleIdent.empty)
      (st.suppMinD.getD k 0)
    if dsm.1 < cst.threshold ∧ (dsm.1 < st.bestDistance ∨
        (dsm.1 = st.bestDistance ∧ dsm.2 < st.bestMinDistance)) then
      { st with bestMinDistance := dsm.2, bestDistance := dsm.1,
                bestSupported := some k }
    else st

/-- The inner (supported) loop of `GetBestMatch`; a direct match breaks
out of it. -/
def gbmInner (env : LocEnv) (cst : GbmConsts) (j : Nat) (dj : Str)
    (dIn dMax : LocaleIdent) : List Str → Nat → GbmState → GbmState
  | [], _, st => st
  | s :: rest, k, st =>
    if st.directMatch then st
    else
      let st := gbmStep env cst j dj dIn dMax k s st
      gbmInner env cst j dj dIn dMax rest (k + 1) st

/-- The outer (desired) loop of `GetBestMatch` (uilocale.cpp:471-586). -/
def gbmOuter (env : LocEnv) (cst : GbmConsts) (supported : List Str) :
    List Str → Nat → GbmState → GbmState
  | [], _, st => st
  | d :: rest, j, st =>
    if st.directMatch then st
    else
      let dIn := fromTag env d
      let dMax := addLikelySubtags env dIn
      let st := gbmInner env cst j d dIn dMax supported 0 st
      gbmOuter env cst supported rest (j + 1) st

/-- `wxLocaleIdent::GetBestMatch` (uilocale.cpp:434): the best supported
tag for the list of desired tags, or the empty string. -/
def getBestMatch (env : LocEnv) (desired supported : List Str) : Str :=
  let st := gbmOuter env (gbmConsts env) supported desired 0 {}
  match st.bestSupported with
  | some k => supported.getD k []
  | none => []

/-! ## Claim-side definitions and test environments -/

def setPathTokenList (pathOrig : Str) (format : PathFormat) : List Str :=
  if pathOrig.isEmpty then []
  else
    let format := getFormat format
    let path := (splitVolume pathOrig format).2
    if path.isEmpty then []
    else
      let path := if format = .mac ∧ path.getD 0 ' ' = ':' then path.drop 1 else path
      tokenizeRE (getPathSeparators format) path

/-- The claim's description of `wxPATH_NORM_DOTS` handling, one component
at a time: `"."` is removed; `".."` cancels the immediately preceding
component unless that component is itself `".."`; a `".."` with no
preceding component is discarded on an absolute path and kept on a
relative one. -/
def removeDotsStep (isAbs : Bool) (acc : List Str) (dir : Str) : List Str :=
  if dir = str "." then acc
  else if dir = str ".." then
    match acc.getLast? with
    | some prev => if prev = str ".." then acc ++ [dir] else acc.dropLast
    | none => if isAbs then acc else acc ++ [dir]
  else acc ++ [dir]

/-- The claim's `"."`/`".."` removal over a whole directory list. -/
def removeDots (isAbs : Bool) (dirs : List Str) : List Str :=
  dirs.foldl (removeDotsStep isAbs) []

/-! Claim-side definitions for the `SplitPath` decomposition. -/
/-- The claim's name part: the characters strictly between the last path
separator and the last extension dot (of the volume-stripped path). -/
def claimedSplitName (fullpath : Str) (format : PathFormat) : Str :=
  match posLastSlashOf fullpath format, posLastDotOf fullpath format with
  | none, none => fullpath
  | none, some d => fullpath.take d
  | some s, none => fullpath.drop (s + 1)
  | some s, some d => (fullpath.drop (s + 1)).take (d - s - 1)

/-- The claim's extension part: the characters after the last extension
dot. -/
def claimedSplitExt (fullpath : Str) (format : PathFormat) : Str :=
  match posLastDotOf fullpath format with
  | none => []
  | some d => fullpath.drop (d + 1)

/-- The claim's path part, as stated: everything before the last
separator, kept as the single separator character itself for files
directly under the root directory. -/
def claimedSplitDirPart (fullpath : Str) (format : PathFormat) : Str :=
  match posLastSlashOf fullpath format with
  | none => []
  | some s => if s = 0 then fullpath.take 1 else fullpath.take s

/-- The amended path part: as the claim states it, except that the
root-directory special case does not apply under `wxPATH_MAC`, and that
under `wxPATH_VMS` a leading `'['` is removed from the result. -/
def amendedSplitDirPart (fullpath : Str) (format : PathFormat) : Str :=
  match posLastSlashOf fullpath format with
  | none => []
  | some s =>
    let p := if s = 0 ∧ getFormat format ≠ .mac then fullpath.take 1
             else fullpath.take s
    if getFormat format = .vms ∧ p.getD 0 ' ' = '[' then p.drop 1 else p

/-! Claim-side definitions for the `hasExt` flag. -/
/-- The final path component: everything after the last path terminator
(the whole volume-stripped path when there is none). -/
def finalComponentOf (fullpath : Str) (format : PathFormat) : Str :=
  match posLastSlashOf fullpath format with
  | none => fullpath
  | some s => fullpath.drop (s + 1)

/-- The claim's `hasExt` condition: the final path component contains a
`'.'` that is not its first character.  (The claim's VMS proviso -- a dot
not immediately preceded by `']'` -- is subsumed: the final component
lies after the last `']'`, so such a dot would be its first character.) -/
def claimHasExtOf (fullpath : Str) (format : PathFormat) : Prop :=
  '.' ∈ (finalComponentOf fullpath format).drop 1

instance (fullpath : Str) (format : PathFormat) :
    Decidable (claimHasExtOf fullpath format) := by
  unfold claimHasExtOf
  infer_instance

/-- The amended `hasExt` condition: the last `'.'` of the volume-stripped
path starts an extension iff it is not the first character, is not
preceded by the native (Unix) separator `'/'`, is not preceded by `']'`
under VMS, and lies strictly after the last path terminator. -/
def amendHasExtOf (fullpath : Str) (format : PathFormat) : Bool :=
  match findLast (· == '.') fullpath with
  | none => false
  | some d =>
    decide (d ≠ 0) && (fullpath.getD (d - 1) ' ' != '/') &&
    !(decide (getFormat format = .vms) && (fullpath.getD (d - 1) ' ' == ']')) &&
    (match posLastSlashOf fullpath format with
     | none => true
     | some sl => decide (sl < d))

/-- The claim's UNC splitting: the volume is the prefix up to, but
excluding, the first path separator after the share name (the whole
string when there is none), with the first two characters normalized to
backslashes; the path is the rest. -/
def claimUNCSplit (fullpath : Str) : Str × Str :=
  match findFrom (fun c => isDOSPathSep c) fullpath 3 with
  | some i => (setFirstTwoBackslash (fullpath.take i), fullpath.drop i)
  | none => (setFirstTwoBackslash fullpath, [])

def locEnvNone : LocEnv :=
  ⟨fun _ => [], fun _ => [], fun _ => [], fun _ _ => 0, fun _ _ _ => false, fun _ => none⟩

/-- The canonical shape of a stored language subtag: empty, the special
`"C"`/`"POSIX"` values, or a lower-case 2-3 letter code. -/
def canonLanguage (l : Str) : Prop :=
  l = [] ∨ l = str "C" ∨ l = str "POSIX" ∨
    ((l.length = 2 ∨ l.length = 3) ∧ l.all Char.isLower = true)

/-- The canonical shape of a stored region subtag: empty or an upper-case
2-3 character alphanumeric code. -/
def canonRegion (r : Str) : Prop :=
  r = [] ∨ ((r.length = 2 ∨ r.length = 3)
    ∧ r.all (fun c => c.isAlphanum && !c.isLower) = true)

/-- The canonical shape of a stored script subtag: empty or a four-letter
code with exactly its first letter capitalized. -/
def canonScript (s : Str) : Prop :=
  s = [] ∨ (s.length = 4 ∧ (s.getD 0 ' ').isUpper = true
    ∧ (s.drop 1).all Char.isLower = true)

/-- The index of the first supported tag comparing case-insensitively equal
to the desired tag `dj`, if any. -/
def firstMatchIdx (dj : Str) : List Str → Option Nat
  | [] => none
  | s :: rest =>
    if cmpNoCaseEq dj s then some 0
    else (firstMatchIdx dj rest).map (fun n => n + 1)

def fsEnvTest : FsEnv := ⟨fun _ => str "/cwd", fun _ => str "/home"⟩

/-! ## Theorems -/

lemma foldl_addPathToken_mac (toks : List Str) (acc : List Str) :
    toks.foldl (addPathToken .mac) acc
      = acc ++ toks.map (fun t => if t.isEmpty then str ".." else t) := by
  induction toks generalizing acc with
  | nil => simp
  | cons t ts ih =>
    simp only [List.foldl_cons, List.map_cons, ih, addPathToken]
    by_cases h : t.isEmpty <;> simp [h]

lemma foldl_addPathToken_nonmac (format : PathFormat) (h : format ≠ .mac)
    (toks : List Str) (acc : List Str) :
    toks.foldl (addPathToken format) acc
      = acc ++ toks.filter (fun t => !t.isEmpty) := by
  induction toks generalizing acc with
  | nil => simp
  | cons t ts ih =>
    simp only [List.foldl_cons, List.filter_cons, ih, addPathToken]
    by_cases ht : t.isEmpty <;> simp [ht, h]

/-- C5: when parsing a path, `wxFileName::DoSetPath` stores an empty token
between two `':'` separators as a `".."` directory component under Mac,
and discards empty tokens arising from consecutive separators under DOS
and Unix. -/
theorem C5_setPathTokens (p : Str) :
    (setPath FileName.clear p .mac).dirs
        = (setPathTokenList p .mac).map (fun t => if t.isEmpty then str ".." else t)
      ∧ (setPath FileName.clear p .dos).dirs
        = (setPathTokenList p .dos).filter (fun t => !t.isEmpty)
      ∧ (setPath FileName.clear p .unix).dirs
        = (setPathTokenList p .unix).filter (fun t => !t.isEmpty) := by
  by_cases h0 : p = []
  · simp [setPath, doSetPath, setPathTokenList, getFormat, h0]
  refine ⟨?_, ?_, ?_⟩
  · by_cases h1 : (splitVolume p .mac).2 = []
    · simp [setPath, doSetPath, setPathTokenList, getFormat, h0, h1, apply_ite FileName.dirs]
    · simp [setPath, doSetPath, setPathTokenList, getFormat, h0, h1, apply_ite FileName.dirs,
        foldl_addPathToken_mac]
  · by_cases h1 : (splitVolume p .dos).2 = []
    · simp [setPath, doSetPath, setPathTokenList, getFormat, h0, h1, apply_ite FileName.dirs]
    · simp [setPath, doSetPath, setPathTokenList, getFormat, h0, h1, apply_ite FileName.dirs,
        foldl_addPathToken_nonmac .dos (by decide)]
  · by_cases h1 : (splitVolume p .unix).2 = []
    · simp [setPath, doSetPath, setPathTokenList, getFormat, h0, h1, apply_ite FileName.dirs]
    · simp [setPath, doSetPath, setPathTokenList, getFormat, h0, h1, apply_ite FileName.dirs,
        foldl_addPathToken_nonmac .unix (by decide)]

lemma normalizeDirsStep_eq_removeDotsStep (relative : Bool) (acc : List Str)
    (dir : Str) :
    normalizeDirsStep true relative acc dir = removeDotsStep (!relative) acc dir := by
  unfold normalizeDirsStep removeDotsStep
  by_cases h1 : dir = str "." 
  · simp [h1]
  by_cases h2 : dir = str ".."
  · simp only [h1, h2, if_neg, not_false_eq_true, if_true, List.isEmpty_iff]
    cases acc with
    | nil => cases relative <;> simp
    | cons a as =>
      have hne : (a :: as) ≠ [] := List.cons_ne_nil a as
      have hsome : (a :: as).getLast? = some ((a :: as).getLast hne) :=
        List.getLast?_eq_getLast _ hne
      by_cases h3 : (a :: as).getLast hne = str ".." <;>
        simp [hsome, h3, List.getLastD_eq_getLast?, hne]
  · simp [h1, h2]

/-- C9: `wxFileName::Normalize` with `wxPATH_NORM_DOTS` removes every `"."`
component and lets every `".."` cancel the immediately preceding component
unless that component is itself `".."`; a `".."` with no preceding
component is discarded on an absolute path and kept on a relative one. -/
theorem C9_normalizeDots (env : FsEnv) (cwd : Str) (format : PathFormat) (st : FileName) :
    normalizePath env { dots := true } cwd format st
      = { st with dirs := removeDots (!st.relative) st.dirs } := by
  unfold normalizePath
  simp only [Bool.false_eq_true, false_and, and_false, if_false, if_neg,
    not_false_eq_true]
  have hok : FileName.clear.isOk = false := rfl
  simp only [hok, Bool.false_eq_true, false_and, if_false]
  have hf : normalizeDirsStep true st.relative = removeDotsStep (!st.relative) :=
    funext fun acc => funext fun dir => normalizeDirsStep_eq_removeDotsStep _ acc dir
  rw [removeDots, hf]

lemma getD_of_lt {l : List Char} {n : Nat} (h : n < l.length) (d : Char) :
    l.getD n d = l[n] := by
  simp [List.getElem?_eq_getElem h]

lemma findLast_eq_none {p : Char → Bool} {s : Str} :
    findLast p s = none ↔ ∀ c ∈ s, p c = false := by
  induction s with
  | nil => simp [findLast]
  | cons c cs ih =>
    unfold findLast
    cases h : findLast p cs with
    | some i =>
      simp only [h, reduceCtorEq, false_iff]
      intro hall
      have : ∀ c ∈ cs, p c = false := fun x hx => hall x (List.mem_cons_of_mem _ hx)
      rw [ih.mpr this] at h
      exact Option.noConfusion h
    | none =>
      cases hpc : p c with
      | true => simp [hpc, List.forall_mem_cons]
      | false =>
        simp only [hpc, Bool.false_eq_true, if_false, List.forall_mem_cons]
        exact iff_of_true trivial ⟨trivial, ih.mp h⟩

lemma findLast_lt_length {p : Char → Bool} {s : Str} {i : Nat}
    (h : findLast p s = some i) : i < s.length := by
  induction s generalizing i with
  | nil => simp [findLast] at h
  | cons c cs ih =>
    unfold findLast at h
    cases hcs : findLast p cs with
    | some j =>
      rw [hcs] at h
      cases h
      exact Nat.succ_lt_succ (ih hcs)
    | none =>
      rw [hcs] at h
      by_cases hc : p c <;> simp [hc] at h
      simp only [List.length_cons]
      omega

lemma findLast_getD {p : Char → Bool} {s : Str} {i : Nat}
    (h : findLast p s = some i) : p (s.getD i ' ') = true := by
  induction s generalizing i with
  | nil => simp [findLast] at h
  | cons c cs ih =>
    unfold findLast at h
    cases hcs : findLast p cs with
    | some j =>
      rw [hcs] at h
      cases h
      simpa using ih hcs
    | none =>
      rw [hcs] at h
      by_cases hc : p c <;> simp [hc] at h
      simp [← h, hc]

lemma findLast_last {p : Char → Bool} {s : Str} {i : Nat}
    (h : findLast p s = some i) :
    ∀ j, i < j → j < s.length → p (s.getD j ' ') = false := by
  induction s generalizing i with
  | nil => simp [findLast] at h
  | cons c cs ih =>
    unfold findLast at h
    intro j hij hj
    cases hcs : findLast p cs with
    | some k =>
      rw [hcs] at h
      cases h
      match j, hij with
      | j + 1, hij =>
        simpa using ih hcs j (Nat.lt_of_succ_lt_succ hij) (by simpa using hj)
    | none =>
      rw [hcs] at h
      by_cases hc : p c <;> simp [hc] at h
      subst h
      match j, hij with
      | j + 1, _ =>
        have hjlen : j < cs.length := by simpa using hj
        rw [List.getD_cons_succ, getD_of_lt hjlen]
        exact findLast_eq_none.mp hcs _ (List.getElem_mem hjlen)

lemma exists_getD_of_mem {c : Char} {s : Str} (h : c ∈ s) :
    ∃ i, i < s.length ∧ s.getD i ' ' = c := by
  obtain ⟨i, hi, hget⟩ := List.mem_iff_getElem.mp h
  exact ⟨i, hi, by rw [getD_of_lt hi]; exact hget⟩

lemma findLast_isSome_of_mem {p : Char → Bool} {s : Str} {c : Char}
    (hc : c ∈ s) (hp : p c = true) : ∃ i, findLast p s = some i := by
  cases h : findLast p s with
  | some i => exact ⟨i, rfl⟩
  | none => rw [findLast_eq_none.mp h c hc] at hp; exact Bool.noConfusion hp

lemma findLast_ge {p : Char → Bool} {s : Str} {i : Nat}
    (h : findLast p s = some i) :
    ∀ j, j < s.length → p (s.getD j ' ') = true → j ≤ i := by
  intro j hj hp
  by_contra hgt
  rw [findLast_last h j (by omega) hj] at hp
  exact Bool.noConfusion hp

lemma getPathTerminators_getFormat (format : PathFormat) :
    getPathTerminators (getFormat format) = getPathTerminators format := by
  cases format <;> rfl

lemma posLastSlashOf_getFormat (x : Str) (format : PathFormat) :
    posLastSlashOf x (getFormat format) = posLastSlashOf x format := by
  cases format <;> rfl

lemma posLastDotOf_getFormat (x : Str) (format : PathFormat) :
    posLastDotOf x (getFormat format) = posLastDotOf x format := by
  cases format <;> rfl

/-- C1: `wxFileName::SplitPath` splits off the volume first; the name is the
part of the remainder strictly between the last path separator and the
last extension dot, the extension is the part after that dot, and the
directory part is everything before the last separator, kept as the single
separator character for files directly under the root — amended in that
the root special case does not apply under Mac and that under VMS the
leading `'['` is dropped from the directory part. -/
theorem C1_splitPath (fullpath : Str) (format : PathFormat) :
    splitPath fullpath format =
      { volume := (splitVolume fullpath (getFormat format)).1,
        path := amendedSplitDirPart (splitVolume fullpath (getFormat format)).2 format,
        name := claimedSplitName (splitVolume fullpath (getFormat format)).2 format,
        ext := claimedSplitExt (splitVolume fullpath (getFormat format)).2 format,
        hasExt := (posLastDotOf (splitVolume fullpath (getFormat format)).2 format).isSome } := by
  unfold splitPath claimedSplitName claimedSplitExt amendedSplitDirPart
  simp only [posLastDotOf_getFormat, posLastSlashOf_getFormat]
  cases hd : posLastDotOf (splitVolume fullpath (getFormat format)).2 format <;>
    cases hs : posLastSlashOf (splitVolume fullpath (getFormat format)).2 format <;>
      simp [hd, hs, apply_ite (List.take · (splitVolume fullpath (getFormat format)).2)]

lemma contains_singleton (a c : Char) : [a].contains c = (c == a) := by
  cases h : c == a <;> simp [List.contains, List.elem, h]

lemma isPathSep_native (c : Char) : isPathSep c .native = (c == '/') := by
  rw [isPathSep]
  exact contains_singleton '/' c

lemma dot_not_terminator (format : PathFormat) :
    (getPathTerminators format).contains '.' = false := by
  cases format <;> decide

lemma splitPath_hasExt (fullpath : Str) (format : PathFormat) :
    (splitPath fullpath format).hasExt
      = (posLastDotOf (splitVolume fullpath (getFormat format)).2 format).isSome := by
  unfold splitPath
  simp only [posLastDotOf_getFormat, posLastSlashOf_getFormat]
  cases hd : posLastDotOf (splitVolume fullpath (getFormat format)).2 format <;>
    simp [hd]

lemma posLastDotOf_isSome_eq_amend (x : Str) (format : PathFormat) :
    (posLastDotOf x format).isSome = amendHasExtOf x format := by
  unfold posLastDotOf amendHasExtOf posLastSlashOf
  cases hd : findLast (· == '.') x with
  | none => simp
  | some d =>
    simp only
    by_cases hnul : d = 0 ∨ isPathSep (x.getD (d - 1) ' ') .native = true ∨
        (getFormat format = .vms ∧ x.getD (d - 1) ' ' = ']')
    · rw [if_pos hnul]
      rcases hnul with h0 | hsep | hvms
      · simp [h0]
      · rw [isPathSep_native] at hsep
        simp only [beq_iff_eq, List.getD_eq_getElem?_getD] at hsep
        simp [hsep]
      · obtain ⟨hv1, hv2⟩ := hvms
        simp only [List.getD_eq_getElem?_getD] at hv2
        simp [hv1, hv2]
    · rw [if_neg hnul]
      push_neg at hnul
      obtain ⟨h0, hsep, hvms⟩ := hnul
      rw [isPathSep_native] at hsep
      simp only [beq_iff_eq, Bool.not_eq_true, List.getD_eq_getElem?_getD] at hsep
      have hvms' : ¬(getFormat format = PathFormat.vms ∧ x[d - 1]?.getD ' ' = ']') := by
        intro hand
        exact hvms hand.1 (by simpa [List.getD_eq_getElem?_getD] using hand.2)
      have hdot : x.getD d ' ' = '.' := by
        have := findLast_getD hd
        simpa using this
      cases hsl : findLast ((getPathTerminators format).contains ·) x with
      | none =>
        simp [h0]
        exact ⟨by simpa using hsep, not_and_or.mp hvms'⟩
      | some sl =>
        have hne : d ≠ sl := by
          intro he
          have := findLast_getD hsl
          rw [← he, hdot, dot_not_terminator] at this
          exact Bool.noConfusion this
        by_cases hlt : d < sl
        · simp [hlt, show ¬sl < d by omega]
        · simp [hlt, show sl < d by omega, h0]
          exact ⟨by simpa using hsep, not_and_or.mp hvms'⟩

lemma getD_mem_drop {x : Str} {d k : Nat} (hlen : d < x.length) (hk : k ≤ d) :
    x.getD d ' ' ∈ x.drop k := by
  rw [getD_of_lt hlen]
  have hdk : d - k < (x.drop k).length := by simp; omega
  have h2 : (x.drop k)[d - k] = x[d] := by
    rw [List.getElem_drop]
    congr 1
    omega
  rw [← h2]
  exact List.getElem_mem hdk

lemma mem_drop_exists {x : Str} {k : Nat} (h : '.' ∈ x.drop k) :
    ∃ j, k ≤ j ∧ j < x.length ∧ x.getD j ' ' = '.' := by
  obtain ⟨i, hi, hget⟩ := List.mem_iff_getElem.mp h
  have hlen : k + i < x.length := by
    have := hi
    simp at this
    omega
  refine ⟨k + i, by omega, hlen, ?_⟩
  rw [getD_of_lt hlen, ← List.getElem_drop]
  exact hget

lemma finalComponent_getFormat (x : Str) (format : PathFormat) :
    finalComponentOf x (getFormat format) = finalComponentOf x format := by
  unfold finalComponentOf
  rw [posLastSlashOf_getFormat]

lemma amend_unix_iff (x : Str) :
    amendHasExtOf x .unix = true ↔ '.' ∈ (finalComponentOf x .unix).drop 1 := by
  unfold amendHasExtOf finalComponentOf posLastSlashOf
  have hpred : (fun c => (getPathTerminators .unix).contains c) = (fun c => c == '/') :=
    funext fun c => contains_singleton '/' c
  rw [hpred]
  cases hd : findLast (· == '.') x with
  | none =>
    simp only [Bool.false_eq_true, false_iff]
    intro hmem
    have hx : '.' ∈ x := by
      rcases hsl : findLast (· == '/') x with _ | sl <;> simp only [hsl] at hmem
      · exact List.mem_of_mem_drop hmem
      · exact List.mem_of_mem_drop (List.mem_of_mem_drop hmem)
    have := findLast_eq_none.mp hd '.' hx
    simp at this
  | some d =>
    have hdlen : d < x.length := findLast_lt_length hd
    have hdot : x.getD d ' ' = '.' := by simpa using findLast_getD hd
    cases hsl : findLast (· == '/') x with
    | none =>
      simp only [hsl]
      constructor
      · intro hb
        simp only [Bool.and_eq_true, decide_eq_true_eq, bne_iff_ne, ne_eq] at hb
        obtain ⟨⟨⟨h0, hsep⟩, -⟩, -⟩ := hb
        rw [← hdot]
        exact getD_mem_drop hdlen (by omega)
      · intro hmem
        obtain ⟨j, hj1, hjlen, hjdot⟩ := mem_drop_exists hmem
        have hjd : j ≤ d := by
          refine findLast_ge hd j hjlen ?_
          rw [List.getD_eq_getElem?_getD] at hjdot
          simp [hjdot]
        have hprev : ¬(x.getD (d - 1) ' ' = '/') := by
          intro he
          have hmem1 : x.getD (d - 1) ' ' ∈ x := by
            rw [getD_of_lt (show d - 1 < x.length by omega)]
            exact List.getElem_mem _
          have := findLast_eq_none.mp hsl _ hmem1
          rw [he] at this
          simp at this
        simp only [Bool.and_eq_true, decide_eq_true_eq, bne_iff_ne, ne_eq]
        exact ⟨⟨⟨by omega, hprev⟩, by simp [getFormat]⟩, trivial⟩
    | some sl =>
      simp only [hsl]
      constructor
      · intro hb
        simp only [Bool.and_eq_true, decide_eq_true_eq, bne_iff_ne, ne_eq] at hb
        obtain ⟨⟨⟨h0, hsep⟩, -⟩, hlt⟩ := hb
        have hne1 : d - 1 ≠ sl := by
          intro he
          have := findLast_getD hsl
          simp only [beq_iff_eq] at this
          rw [he] at hsep
          exact hsep this
        rw [List.drop_drop, ← hdot]
        exact getD_mem_drop hdlen (by omega)
      · intro hmem
        rw [List.drop_drop] at hmem
        obtain ⟨j, hj1, hjlen, hjdot⟩ := mem_drop_exists hmem
        have hjd : j ≤ d := by
          refine findLast_ge hd j hjlen ?_
          rw [List.getD_eq_getElem?_getD] at hjdot
          simp [hjdot]
        have hprev : (x.getD (d - 1) ' ' == '/') = false :=
          findLast_last hsl (d - 1) (by omega) (by omega)
        simp only [Bool.and_eq_true, decide_eq_true_eq, bne_iff_ne, ne_eq]
        refine ⟨⟨⟨by omega, ?_⟩, by simp [getFormat]⟩, by omega⟩
        intro he
        rw [he] at hprev
        simp at hprev

/-- C8: the `hasExt` flag of `wxFileName::SplitPath` equals the amended
condition on the last dot of the volume-stripped path; under Unix it is
equivalent to the final path component containing a `'.'` beyond its first
character — amended because the dot-position check uses the native (Unix)
separator for every format, so e.g. a DOS component starting with a dot
still yields an extension. -/
theorem C8_hasExt (fullpath : Str) (format : PathFormat) :
    ((splitPath fullpath format).hasExt
        = amendHasExtOf (splitVolume fullpath (getFormat format)).2 format)
    ∧ (getFormat format = .unix →
        ((splitPath fullpath format).hasExt = true ↔
          claimHasExtOf (splitVolume fullpath (getFormat format)).2 format)) := by
  constructor
  · rw [splitPath_hasExt, posLastDotOf_isSome_eq_amend]
  · intro hu
    rw [splitPath_hasExt]
    unfold claimHasExtOf
    rw [← posLastDotOf_getFormat, ← finalComponent_getFormat, hu,
      posLastDotOf_isSome_eq_amend]
    exact amend_unix_iff _

theorem C8_hasExt_witness :
    ((splitPath (str "x/.bashrc") .unix).hasExt = true ↔
        claimHasExtOf (str "x/.bashrc") .unix)
      ∧ (splitPath (str "x/.bashrc") .unix).hasExt = false
      ∧ (splitPath (str "x/foo.") .unix).hasExt = true :=
  ⟨(C8_hasExt (str "x/.bashrc") .unix).2 rfl, by decide, by decide⟩

theorem C8_hasExt_counterexample :
    (splitVolume (str "d\\.txt") .dos).2 = str "d\\.txt"
      ∧ (splitPath (str "d\\.txt") .dos).hasExt = true
      ∧ ¬claimHasExtOf (str "d\\.txt") .dos := by
  decide

theorem C1_splitPath_counterexample :
    (splitVolume (str "[dir]file") .vms).2 = str "[dir]file"
      ∧ (splitPath (str "[dir]file") .vms).path
          ≠ claimedSplitDirPart (str "[dir]file") .vms := by
  decide

lemma contains_dos_terminators (c : Char) :
    (getPathTerminators .dos).contains c = isDOSPathSep c := by
  cases h1 : c == '\\' <;> cases h2 : c == '/' <;>
    simp [getPathTerminators, getPathSeparators, getFormat, List.contains, List.elem,
      isDOSPathSep, h1, h2]

/-- C4: for DOS UNC paths, `wxFileName::SplitVolume` returns as volume the
prefix up to (excluding) the first path separator after the share name
with the first two characters normalized to backslashes, and the rest as
the path; with no such separator the whole string is the volume — amended
in that this only applies when the path does not start with the
extended-length prefix, which is handled by an earlier branch. -/
theorem C4_uncSplit (fullpath : Str) (hunc : isUNCPath fullpath = true)
    (hext : leadsWith mswExtendedPathPfx fullpath = false) :
    splitVolume fullpath .dos = claimUNCSplit fullpath := by
  unfold splitVolume claimUNCSplit
  have hpred : (fun c => (getPathTerminators .dos).contains c)
      = (fun c => isDOSPathSep c) := funext contains_dos_terminators
  simp only [getFormat, hext, Bool.false_eq_true, if_false, hunc, if_true, hpred]

theorem C4_uncSplit_counterexample :
    isUNCPath (str "\\\\?\\c$\\x") = true
      ∧ splitVolume (str "\\\\?\\c$\\x") .dos ≠ claimUNCSplit (str "\\\\?\\c$\\x") := by
  decide

theorem C4_uncSplit_witness :
    splitVolume (str "//srv/x") .dos = claimUNCSplit (str "//srv/x") :=
  C4_uncSplit (str "//srv/x") (by decide) (by decide)

lemma foldl_normalizeDirsStep_false (rel : Bool) (dirs acc : List Str) :
    dirs.foldl (normalizeDirsStep false rel) acc = acc ++ dirs := by
  induction dirs generalizing acc with
  | nil => simp
  | cons d ds ih => simp [normalizeDirsStep, ih]

/-- `Normalize(wxPATH_NORM_LONG)` is the identity on this (non-Windows)
build: no flag handled here is set, and rebuilding `m_dirs` through the
loop reproduces it. -/
lemma normalizePath_long (env : FsEnv) (cwd : Str) (format : PathFormat)
    (st : FileName) : normalizePath env { long := true } cwd format st = st := by
  unfold normalizePath
  simp only [Bool.false_eq_true, false_and, and_false, if_false, if_neg,
    not_false_eq_true]
  have hok : FileName.clear.isOk = false := rfl
  simp only [hok, Bool.false_eq_true, false_and, if_false]
  rw [foldl_normalizeDirsStep_false]
  rfl

/-- C7: `wxFileName::MakeRelativeTo` returns false exactly when the volumes of
this path and the base path, after both are made absolute against the
current working directory, differ (compared case-insensitively except
under Unix); when it returns true the stored path has become relative and
without volume. -/
theorem C7_makeRelativeTo (env : FsEnv) (st : FileName) (pathBase : Str) (format : PathFormat) :
    ((makeRelativeTo env st pathBase format).1 = false
      ↔ isSameAs (makeAbsolute env st (env.cwd []) format).volume
          (makeAbsolute env (dirName pathBase format) (env.cwd []) format).volume
          (decide (getFormat format = .unix)) = false)
    ∧ ((makeRelativeTo env st pathBase format).1 = true →
        (makeRelativeTo env st pathBase format).2.relative = true
          ∧ (makeRelativeTo env st pathBase format).2.volume = []) := by
  simp only [makeRelativeTo, normalizePath_long]
  have hcs : isCaseSensitive format = decide (getFormat format = .unix) := by
    unfold isCaseSensitive
    rfl
  rw [← hcs]
  by_cases hvol : isSameAs (makeAbsolute env st (env.cwd []) format).volume
      (makeAbsolute env (dirName pathBase format) (env.cwd []) format).volume
      (isCaseSensitive format) = true
  · rw [if_neg (by simp [hvol])]
    constructor
    · simp [hvol]
    · intro _
      constructor <;> rfl
  · rw [if_pos (by simpa using hvol)]
    constructor
    · simp only [Bool.not_eq_true] at hvol
      simp [hvol]
    · intro h
      exact absurd h (by simp)

@[simp] lemma setCharset_tag (st : LocaleIdent) (x : Str) :
    (setCharset st x).tag = st.tag := by
  unfold setCharset
  split <;> rfl

@[simp] lemma setModifier_tag (st : LocaleIdent) (x : Str) :
    (setModifier st x).tag = st.tag := by
  unfold setModifier
  split <;> rfl

@[simp] lemma setExtension_tag (st : LocaleIdent) (x : Str) :
    (setExtension st x).tag = st.tag := by
  unfold setExtension
  split <;> rfl

@[simp] lemma setSortOrder_tag (st : LocaleIdent) (x : Str) :
    (setSortOrder st x).tag = st.tag := by
  unfold setSortOrder
  split <;> rfl

@[simp] lemma setScript_tag (env : LocEnv) (st : LocaleIdent) (x : Str) :
    (setScript env st x).tag = st.tag := by
  unfold setScript
  split <;> first | rfl | (split <;> rfl)

@[simp] lemma setRegion_tag (st : LocaleIdent) (x : Str) :
    (setRegion st x).tag = st.tag := by
  unfold setRegion
  split <;> rfl

@[simp] lemma checkLanguageVariant_tag (st : LocaleIdent) :
    (checkLanguageVariant st).tag = st.tag := by
  unfold checkLanguageVariant
  split <;> [skip; split] <;> simp

@[simp] lemma fromTagAfterFirstSubtag_tag (st : LocaleIdent) (rest : List Str) :
    (fromTagAfterFirstSubtag st rest).tag = st.tag := by
  unfold fromTagAfterFirstSubtag
  split
  · simp
  · split
    · split <;> simp
    · simp

lemma fromTagBcp47_language_or_tag (locId : LocaleIdent) (tagMain tag : Str) :
    (fromTagBcp47 locId tagMain tag).language = []
      ∨ (fromTagBcp47 locId tagMain tag).tag = tag := by
  unfold fromTagBcp47
  cases hp : wxSplit '-' (replaceChar '_' '-' tagMain) with
  | nil => exact Or.inl rfl
  | cons lang rest =>
    cases rest with
    | nil => exact Or.inr rfl
    | cons r rs =>
      simp only
      split
      · split
        · exact Or.inr rfl
        · split
          · exact Or.inr (by simp)
          · split
            · exact Or.inr (by simp)
            · exact Or.inl rfl
      · exact Or.inr rfl

lemma fromTag_language_or_tag (env : LocEnv) (tag : Str)
    (hC : isDefaultCLocale tag = false) :
    (fromTag env tag).language = [] ∨ (fromTag env tag).tag = tag := by
  unfold fromTag
  rw [if_neg (by simp [hC])]
  exact fromTagBcp47_language_or_tag _ _ _

lemma fromTag_nil (env : LocEnv) : fromTag env [] = LocaleIdent.empty := rfl

/-- C3: for every tag that is not the special C/POSIX locale and on which
`FromTag` parses a non-empty language, `GetTag(wxLOCALE_TAGTYPE_DEFAULT)`
on the result returns the original tag verbatim. -/
theorem C3_roundTrip (env : LocEnv) (tag : Str) (hC : isDefaultCLocale tag = false)
    (hlang : (fromTag env tag).language ≠ []) :
    getTag env (fromTag env tag) .dflt = tag := by
  rcases fromTag_language_or_tag env tag hC with h | h
  · exact absurd h hlang
  · have htag : tag ≠ [] := by
      intro h0
      subst h0
      rw [fromTag_nil] at hlang
      exact hlang rfl
    unfold getTag
    rw [if_pos ⟨rfl, by simp [h, htag]⟩]
    exact h

theorem C3_roundTrip_witness :
    getTag locEnvNone (fromTag locEnvNone (str "de-DE")) .dflt = str "de-DE" :=
  C3_roundTrip locEnvNone (str "de-DE") (by decide) (by decide)

/-! Character-case lemmas for the ASCII subset handled by
`wxString::Lower`/`Upper`/`Capitalize`. -/
lemma char_eq_ofNat (c : Char) (n : Nat) (h : c.toNat = n) : c = Char.ofNat n := by
  rw [← h, Char.ofNat_toNat]

lemma isUpper_toNat {c : Char} (h : c.isUpper = true) : 65 ≤ c.toNat ∧ c.toNat ≤ 90 := by
  simp only [Char.isUpper, Bool.and_eq_true, decide_eq_true_eq, ge_iff_le,
    UInt32.le_def, BitVec.le_def] at h
  exact h

lemma isLower_toNat {c : Char} (h : c.isLower = true) : 97 ≤ c.toNat ∧ c.toNat ≤ 122 := by
  simp only [Char.isLower, Bool.and_eq_true, decide_eq_true_eq, ge_iff_le,
    UInt32.le_def, BitVec.le_def] at h
  exact h

lemma isDigit_toNat {c : Char} (h : c.isDigit = true) : 48 ≤ c.toNat ∧ c.toNat ≤ 57 := by
  simp only [Char.isDigit, Bool.and_eq_true, decide_eq_true_eq, ge_iff_le,
    UInt32.le_def, BitVec.le_def] at h
  exact h

lemma not_isUpper_toNat {c : Char} (h : c.isUpper = false) :
    ¬(65 ≤ c.toNat ∧ c.toNat ≤ 90) := by
  intro hc
  rw [show c.isUpper = true by
    simp only [Char.isUpper, Bool.and_eq_true, decide_eq_true_eq, ge_iff_le,
      UInt32.le_def, BitVec.le_def]
    exact hc] at h
  exact Bool.noConfusion h

lemma not_isLower_toNat {c : Char} (h : c.isLower = false) :
    ¬(97 ≤ c.toNat ∧ c.toNat ≤ 122) := by
  intro hc
  rw [show c.isLower = true by
    simp only [Char.isLower, Bool.and_eq_true, decide_eq_true_eq, ge_iff_le,
      UInt32.le_def, BitVec.le_def]
    exact hc] at h
  exact Bool.noConfusion h

lemma toLower_eq_self {c : Char} (h : c.isUpper = false) : Char.toLower c = c := by
  unfold Char.toLower
  exact if_neg (not_isUpper_toNat h)

lemma toUpper_eq_self {c : Char} (h : c.isLower = false) : Char.toUpper c = c := by
  unfold Char.toUpper
  exact if_neg (not_isLower_toNat h)

lemma toLower_isLower {c : Char} (h : c.isUpper = true) :
    (Char.toLower c).isLower = true := by
  obtain ⟨h1, h2⟩ := isUpper_toNat h
  interval_cases h3 : c.toNat <;> rw [char_eq_ofNat c _ h3] <;> decide

lemma toUpper_isUpper {c : Char} (h : c.isLower = true) :
    (Char.toUpper c).isUpper = true := by
  obtain ⟨h1, h2⟩ := isLower_toNat h
  interval_cases h3 : c.toNat <;> rw [char_eq_ofNat c _ h3] <;> decide

lemma toLower_ne_self {c : Char} (h : c.isUpper = true) : Char.toLower c ≠ c := by
  obtain ⟨h1, h2⟩ := isUpper_toNat h
  interval_cases h3 : c.toNat <;> rw [char_eq_ofNat c _ h3] <;> decide

lemma toUpper_ne_self {c : Char} (h : c.isLower = true) : Char.toUpper c ≠ c := by
  obtain ⟨h1, h2⟩ := isLower_toNat h
  interval_cases h3 : c.toNat <;> rw [char_eq_ofNat c _ h3] <;> decide

lemma toUpper_toLower (c : Char) : Char.toUpper (Char.toLower c) = Char.toUpper c := by
  cases hu : c.isUpper with
  | true =>
    obtain ⟨h1, h2⟩ := isUpper_toNat hu
    interval_cases h3 : c.toNat <;> rw [char_eq_ofNat c _ h3] <;> decide
  | false => rw [toLower_eq_self hu]

lemma toLower_toUpper (c : Char) : Char.toLower (Char.toUpper c) = Char.toLower c := by
  cases hl : c.isLower with
  | true =>
    obtain ⟨h1, h2⟩ := isLower_toNat hl
    interval_cases h3 : c.toNat <;> rw [char_eq_ofNat c _ h3] <;> decide
  | false => rw [toUpper_eq_self hl]

lemma toUpper_not_isLower (c : Char) : (Char.toUpper c).isLower = false := by
  cases hl : c.isLower with
  | true =>
    obtain ⟨h1, h2⟩ := isLower_toNat hl
    interval_cases h3 : c.toNat <;> rw [char_eq_ofNat c _ h3] <;> decide
  | false => rw [toUpper_eq_self hl]; exact hl

lemma toLower_not_isUpper (c : Char) : (Char.toLower c).isUpper = false := by
  cases hu : c.isUpper with
  | true =>
    obtain ⟨h1, h2⟩ := isUpper_toNat hu
    interval_cases h3 : c.toNat <;> rw [char_eq_ofNat c _ h3] <;> decide
  | false => rw [toLower_eq_self hu]; exact hu

lemma toUpper_isAlphanum {c : Char} (h : c.isAlphanum = true) :
    (Char.toUpper c).isAlphanum = true := by
  cases hl : c.isLower with
  | true =>
    obtain ⟨h1, h2⟩ := isLower_toNat hl
    interval_cases h3 : c.toNat <;> rw [char_eq_ofNat c _ h3] <;> decide
  | false => rw [toUpper_eq_self hl]; exact h

lemma isUpper_false_of_isLower {c : Char} (hl : c.isLower = true) :
    c.isUpper = false := by
  cases h2 : c.isUpper with
  | false => rfl
  | true =>
    obtain ⟨a, b⟩ := isUpper_toNat h2
    obtain ⟨a2, b2⟩ := isLower_toNat hl
    omega

lemma isLower_false_of_isUpper {c : Char} (hu : c.isUpper = true) :
    c.isLower = false := by
  cases h2 : c.isLower with
  | false => rfl
  | true =>
    obtain ⟨a, b⟩ := isUpper_toNat hu
    obtain ⟨a2, b2⟩ := isLower_toNat h2
    omega

lemma toLower_isLower_of_isAlpha {c : Char} (h : c.isAlpha = true) :
    (Char.toLower c).isLower = true := by
  rcases Bool.or_eq_true_iff.mp (by simpa [Char.isAlpha] using h) with hu | hl
  · exact toLower_isLower hu
  · rw [toLower_eq_self (isUpper_false_of_isLower hl)]
    exact hl

lemma toUpper_isUpper_of_isAlpha {c : Char} (h : c.isAlpha = true) :
    (Char.toUpper c).isUpper = true := by
  rcases Bool.or_eq_true_iff.mp (by simpa [Char.isAlpha] using h) with hu | hl
  · rw [toUpper_eq_self (isLower_false_of_isUpper hu)]
    exact hu
  · exact toUpper_isUpper hl

lemma map_fixed_points {f : Char → Char} {l : Str} (h : l.map f = l) :
    ∀ c ∈ l, f c = c := by
  induction l with
  | nil => simp
  | cons c cs ih =>
    simp only [List.map_cons, List.cons.injEq] at h
    intro x hx
    rcases List.mem_cons.mp hx with rfl | hx'
    · exact h.1
    · exact ih h.2 x hx'

lemma upperS_map_lowerS (a : Str) : (lowerS a).map Char.toUpper = upperS a := by
  unfold lowerS upperS
  rw [List.map_map]
  exact List.map_congr_left fun c _ => toUpper_toLower c

lemma upperS_congr {a b : Str} (h : lowerS a = lowerS b) : upperS a = upperS b := by
  rw [← upperS_map_lowerS a, h, upperS_map_lowerS]

/-- C10: the `wxLocaleIdent` setters keep their fields canonical: `Language`
stores C/POSIX uppercased or a lowercased 2-3 letter code and otherwise
clears the field; `Region` stores an uppercased 2-3 character alphanumeric
code and otherwise clears; `Script` stores a 4-letter code with exactly
the first letter capitalized or an alias-resolved script name and
otherwise clears; in each case an out-of-shape argument is never stored as
given. -/
theorem C10_setters (env : LocEnv)
    (hAlias : ∀ s, canonScript (env.scriptNameFromAlias s))
    (st : LocaleIdent) (lang rg sc : Str) :
    (canonLanguage (setLanguage st lang).language
      ∧ ((setLanguage st lang).language = lang → canonLanguage lang))
    ∧ (canonRegion (setRegion st rg).region
      ∧ ((setRegion st rg).region = rg → canonRegion rg))
    ∧ (canonScript (setScript env st sc).script
      ∧ ((setScript env st sc).script = sc → canonScript sc)) := by
  refine ⟨?_, ?_, ?_⟩
  · unfold setLanguage
    split
    · rename_i h1
      have hup : upperS lang = str "C" ∨ upperS lang = str "POSIX" := by
        rcases Bool.or_eq_true_iff.mp h1 with hc | hp
        · exact Or.inl (by rw [upperS_congr (by simpa [cmpNoCaseEq] using hc)]; rfl)
        · exact Or.inr (by rw [upperS_congr (by simpa [cmpNoCaseEq] using hp)]; rfl)
      constructor
      · simp only
        rcases hup with h | h <;> simp [canonLanguage, h]
      · intro he
        simp only at he
        rw [← he]
        rcases hup with h | h <;> simp [canonLanguage, h]
    · split
      · rename_i h1 h2
        constructor
        · simp only
          refine Or.inr (Or.inr (Or.inr ⟨by simpa [lowerS] using h2.1, ?_⟩))
          rw [List.all_eq_true]
          intro x hx
          obtain ⟨c, hc, rfl⟩ := List.mem_map.mp hx
          exact toLower_isLower_of_isAlpha (by
            have := (List.all_eq_true.mp h2.2) c hc
            simpa [isAlphaCh] using this)
        · intro he
          simp only at he
          refine Or.inr (Or.inr (Or.inr ⟨h2.1, ?_⟩))
          rw [List.all_eq_true]
          intro x hx
          have hfix := map_fixed_points he x hx
          have halpha : x.isAlpha = true := by
            have := (List.all_eq_true.mp h2.2) x hx
            simpa [isAlphaCh] using this
          rcases Bool.or_eq_true_iff.mp (by simpa [Char.isAlpha] using halpha) with hu | hl
          · exact absurd hfix (toLower_ne_self hu)
          · exact hl
      · exact ⟨Or.inl rfl, fun he => Or.inl (by rw [← he])⟩
  · unfold setRegion
    split
    · rename_i h2
      constructor
      · simp only
        refine Or.inr ⟨by simpa [upperS] using h2.1, ?_⟩
        rw [List.all_eq_true]
        intro x hx
        obtain ⟨c, hc, rfl⟩ := List.mem_map.mp hx
        have halnum : c.isAlphanum = true := by
          have := (List.all_eq_true.mp h2.2) c hc
          simpa [isAlnumCh] using this
        simp [toUpper_isAlphanum halnum, toUpper_not_isLower]
      · intro he
        simp only at he
        refine Or.inr ⟨h2.1, ?_⟩
        rw [List.all_eq_true]
        intro x hx
        have hfix := map_fixed_points he x hx
        have halnum : x.isAlphanum = true := by
          have := (List.all_eq_true.mp h2.2) x hx
          simpa [isAlnumCh] using this
        cases hl : x.isLower with
        | false => simp [halnum, hl]
        | true => exact absurd hfix (toUpper_ne_self hl)
    · exact ⟨Or.inl rfl, fun he => Or.inl (by rw [← he])⟩
  · unfold setScript
    split
    · rename_i h1
      have hcap : ∀ s : Str, s.length = 4 → s.all isAlphaCh = true →
          canonScript (capitalizeS s) := by
        intro s hlen hall
        match s, hlen with
        | c :: cs, hlen =>
          refine Or.inr ⟨by simpa [capitalizeS, lowerS] using hlen, ?_, ?_⟩
          · simp only [capitalizeS, List.getD_cons_zero]
            exact toUpper_isUpper_of_isAlpha (by
              have := (List.all_eq_true.mp hall) c (List.mem_cons_self c cs)
              simpa [isAlphaCh] using this)
          · simp only [capitalizeS, List.drop_succ_cons, List.drop_zero]
            rw [List.all_eq_true]
            intro x hx
            obtain ⟨y, hy, rfl⟩ := List.mem_map.mp hx
            exact toLower_isLower_of_isAlpha (by
              have := (List.all_eq_true.mp hall) y (List.mem_cons_of_mem c hy)
              simpa [isAlphaCh] using this)
      constructor
      · simp only
        exact hcap sc h1.1 h1.2
      · intro he
        simp only at he
        rw [← he]
        exact hcap sc h1.1 h1.2
    · split
      · constructor
        · simp only
          exact hAlias _
        · intro he
          simp only at he
          rw [← he]
          exact hAlias _
      · exact ⟨Or.inl rfl, fun he => Or.inl (by rw [← he])⟩

theorem C10_setters_witness :
    (canonLanguage (setLanguage LocaleIdent.empty (str "EN")).language
      ∧ ((setLanguage LocaleIdent.empty (str "EN")).language = str "EN" →
          canonLanguage (str "EN")))
    ∧ (canonRegion (setRegion LocaleIdent.empty (str "us")).region
      ∧ ((setRegion LocaleIdent.empty (str "us")).region = str "us" →
          canonRegion (str "us")))
    ∧ (canonScript (setScript locEnvNone LocaleIdent.empty (str "latn")).script
      ∧ ((setScript locEnvNone LocaleIdent.empty (str "latn")).script = str "latn" →
          canonScript (str "latn"))) :=
  C10_setters locEnvNone (fun _ => Or.inl rfl) LocaleIdent.empty (str "EN") (str "us")
    (str "latn")

/-! Loop lemmas for `GetBestMatch`. -/
lemma gbmDistance_fst_ge (env : LocEnv) (cst : GbmConsts) (d0 : Int)
    (dIn dMax sIn sMax : LocaleIdent) (smd : Int)
    (hsc : 0 ≤ cst.scriptD) (hrg : 0 ≤ cst.regionGroupD) (hrd : 0 ≤ cst.regionD)
    (hld : 0 ≤ cst.langD) :
    d0 ≤ (gbmDistance env cst d0 dIn dMax sIn sMax smd).1 := by
  simp only [gbmDistance]
  split_ifs <;> simp <;> omega

lemma gbmRegister_best (env : LocEnv) (s : Str) (st : GbmState) :
    (gbmRegister env s st).bestSupported = st.bestSupported
      ∧ (gbmRegister env s st).bestDistance = st.bestDistance
      ∧ (gbmRegister env s st).directMatch = st.directMatch := by
  simp [gbmRegister]

lemma gbmStep_bestSupported (env : LocEnv) (cst : GbmConsts) (j : Nat) (dj : Str)
    (dIn dMax : LocaleIdent) (k : Nat) (s : Str) (st : GbmState) :
    (gbmStep env cst j dj dIn dMax k s st).bestSupported = st.bestSupported
      ∨ (gbmStep env cst j dj dIn dMax k s st).bestSupported = some k := by
  simp only [gbmStep]
  split
  · split <;> simp
  · split <;> split <;> simp [gbmRegister]

lemma gbmStep_directMatch_eq (env : LocEnv) (cst : GbmConsts) (j : Nat) (dj : Str)
    (dIn dMax : LocaleIdent) (k : Nat) (s : Str) (st : GbmState)
    (h : cmpNoCaseEq dj s = false) :
    (gbmStep env cst j dj dIn dMax k s st).directMatch = st.directMatch := by
  simp only [gbmStep]
  rw [if_neg (by simp [h])]
  split
  · split <;> simp [gbmRegister]
  · split <;> simp [gbmRegister]

lemma gbmStep_nonmatch_bestDistance (env : LocEnv) (cst : GbmConsts) (dj : Str)
    (dIn dMax : LocaleIdent) (k : Nat) (s : Str) (st : GbmState)
    (h : cmpNoCaseEq dj s = false)
    (hsc : 0 ≤ cst.scriptD) (hrg : 0 ≤ cst.regionGroupD) (hrd : 0 ≤ cst.regionD)
    (hld : 0 ≤ cst.langD) (hbd : 1 ≤ st.bestDistance) :
    1 ≤ (gbmStep env cst 0 dj dIn dMax k s st).bestDistance := by
  simp only [gbmStep]
  rw [if_neg (by simp [h])]
  simp only [Nat.cast_zero, zero_mul, zero_add, if_pos rfl, reduceIte]
  split
  · simp only
    exact gbmDistance_fst_ge env cst 1 dIn dMax _ _ _ hsc hrg hrd hld
  · simpa [gbmRegister] using hbd

lemma gbmStep_match (env : LocEnv) (cst : GbmConsts) (dj : Str)
    (dIn dMax : LocaleIdent) (k : Nat) (s : Str) (st : GbmState)
    (h : cmpNoCaseEq dj s = true) (hbd : 1 ≤ st.bestDistance) :
    (gbmStep env cst 0 dj dIn dMax k s st).bestSupported = some k
      ∧ (gbmStep env cst 0 dj dIn dMax k s st).directMatch = true := by
  simp only [gbmStep]
  rw [if_pos (by simp [h])]
  rw [if_pos (by simp; omega)]
  simp

lemma gbmInner_stop (env : LocEnv) (cst : GbmConsts) (j : Nat) (dj : Str)
    (dIn dMax : LocaleIdent) (l : List Str) (k0 : Nat) (st : GbmState)
    (h : st.directMatch = true) :
    gbmInner env cst j dj dIn dMax l k0 st = st := by
  cases l <;> simp [gbmInner, h]

lemma gbmOuter_stop (env : LocEnv) (cst : GbmConsts) (supported : List Str)
    (l : List Str) (j : Nat) (st : GbmState) (h : st.directMatch = true) :
    gbmOuter env cst supported l j st = st := by
  cases l <;> simp [gbmOuter, h]

lemma gbmOuter_cons (env : LocEnv) (cst : GbmConsts) (supported : List Str)
    (d : Str) (rest : List Str) (j : Nat) (st : GbmState)
    (h : st.directMatch = false) :
    gbmOuter env cst supported (d :: rest) j st =
      gbmOuter env cst supported rest (j + 1)
        (gbmInner env cst j d (fromTag env d) (addLikelySubtags env (fromTag env d))
          supported 0 st) := by
  simp [gbmOuter, h]

lemma gbmInner_bestSupported_lt (env : LocEnv) (cst : GbmConsts) (j : Nat)
    (dj : Str) (dIn dMax : LocaleIdent) (n : Nat) :
    ∀ (l : List Str) (k0 : Nat) (st : GbmState), k0 + l.length ≤ n →
      (∀ k, st.bestSupported = some k → k < n) →
      ∀ k, (gbmInner env cst j dj dIn dMax l k0 st).bestSupported = some k → k < n := by
  intro l
  induction l with
  | nil =>
    intro k0 st _ hst k hk
    rw [gbmInner] at hk
    exact hst k hk
  | cons s rest ih =>
    intro k0 st hl hst k hk
    simp only [List.length_cons] at hl
    simp only [gbmInner] at hk
    split at hk
    · exact hst k hk
    · refine ih (k0 + 1) _ (by omega) ?_ k hk
      intro m hm
      rcases gbmStep_bestSupported env cst j dj dIn dMax k0 s st with h1 | h1
      · rw [h1] at hm
        exact hst m hm
      · rw [h1] at hm
        have := Option.some.inj hm
        omega

lemma gbmOuter_bestSupported_lt (env : LocEnv) (cst : GbmConsts)
    (supported : List Str) :
    ∀ (l : List Str) (j : Nat) (st : GbmState),
      (∀ k, st.bestSupported = some k → k < supported.length) →
      ∀ k, (gbmOuter env cst supported l j st).bestSupported = some k →
        k < supported.length := by
  intro l
  induction l with
  | nil =>
    intro j st hst k hk
    rw [gbmOuter] at hk
    exact hst k hk
  | cons d rest ih =>
    intro j st hst k hk
    simp only [gbmOuter] at hk
    split at hk
    · exact hst k hk
    · exact ih (j + 1) _
        (gbmInner_bestSupported_lt env cst j d _ _ supported.length supported 0 st
          (by omega) hst) k hk

lemma gbmInner_first_match (env : LocEnv) (cst : GbmConsts) (dj : Str)
    (dIn dMax : LocaleIdent)
    (hsc : 0 ≤ cst.scriptD) (hrg : 0 ≤ cst.regionGroupD) (hrd : 0 ≤ cst.regionD)
    (hld : 0 ≤ cst.langD) :
    ∀ (l : List Str) (k0 : Nat) (st : GbmState) (i : Nat),
      st.directMatch = false → 1 ≤ st.bestDistance →
      firstMatchIdx dj l = some i →
      (gbmInner env cst 0 dj dIn dMax l k0 st).bestSupported = some (k0 + i)
        ∧ (gbmInner env cst 0 dj dIn dMax l k0 st).directMatch = true := by
  intro l
  induction l with
  | nil =>
    intro k0 st i _ _ hi
    simp [firstMatchIdx] at hi
  | cons s rest ih =>
    intro k0 st i hdm hbd hi
    simp only [firstMatchIdx] at hi
    simp only [gbmInner, hdm, Bool.false_eq_true, if_false]
    by_cases hc : cmpNoCaseEq dj s = true
    · rw [if_pos hc] at hi
      have hi0 : i = 0 := (Option.some.inj hi).symm
      subst hi0
      have hm := gbmStep_match env cst dj dIn dMax k0 s st hc hbd
      rw [gbmInner_stop env cst 0 dj dIn dMax rest (k0 + 1) _ hm.2]
      simpa using hm
    · rw [if_neg hc] at hi
      cases hrest : firstMatchIdx dj rest with
      | none =>
        rw [hrest] at hi
        simp at hi
      | some m =>
        rw [hrest] at hi
        simp only [Option.map] at hi
        have him : m + 1 = i := Option.some.inj hi
        have hcf : cmpNoCaseEq dj s = false := by
          simpa using hc
        have h1 := gbmStep_directMatch_eq env cst 0 dj dIn dMax k0 s st hcf
        have h2 := gbmStep_nonmatch_bestDistance env cst dj dIn dMax k0 s st hcf
          hsc hrg hrd hld hbd
        have hr := ih (k0 + 1) (gbmStep env cst 0 dj dIn dMax k0 s st) m
          (h1.trans hdm) h2 hrest
        refine ⟨?_, hr.2⟩
        rw [hr.1]
        congr 1
        omega

lemma gbmConsts_nonneg (env : LocEnv)
    (hnn : ∀ a b, 0 ≤ env.matchDistance a b) :
    0 ≤ (gbmConsts env).scriptD ∧ 0 ≤ (gbmConsts env).regionGroupD
      ∧ 0 ≤ (gbmConsts env).regionD ∧ 0 ≤ (gbmConsts env).langD := by
  simp only [gbmConsts]
  refine ⟨hnn _ _, hnn _ _, ?_, hnn _ _⟩
  have := hnn (str "*-*-*") (str "*-*-*")
  omega

/-- C6: `wxLocaleIdent::GetBestMatch` always returns an element of the
supported list or the empty string, and when the first desired tag
compares case-insensitively equal to some supported tag it returns the
first such supported tag unchanged. -/
theorem C6_bestMatch (env : LocEnv) (desired supported : List Str)
    (hnn : ∀ a b, 0 ≤ env.matchDistance a b) :
    (getBestMatch env desired supported ∈ supported
      ∨ getBestMatch env desired supported = [])
    ∧ (∀ d0 drest i, desired = d0 :: drest →
        firstMatchIdx d0 supported = some i →
        getBestMatch env desired supported = supported.getD i []) := by
  constructor
  · have hlt := gbmOuter_bestSupported_lt env (gbmConsts env) supported desired 0 {}
      (by intro k hk; simp at hk)
    simp only [getBestMatch]
    cases hbs : (gbmOuter env (gbmConsts env) supported desired 0 {}).bestSupported with
    | none => right; rfl
    | some k =>
      left
      have hk := hlt k hbs
      show supported.getD k [] ∈ supported
      rw [List.getD_eq_getElem?_getD, List.getElem?_eq_getElem hk]
      exact List.getElem_mem _
  · intro d0 drest i hdes hi
    subst hdes
    obtain ⟨hsc, hrg, hrd, hld⟩ := gbmConsts_nonneg env hnn
    have hfm := gbmInner_first_match env (gbmConsts env) d0 (fromTag env d0)
      (addLikelySubtags env (fromTag env d0)) hsc hrg hrd hld supported 0 {} i rfl
      (by simp [distInfinity]) hi
    simp only [getBestMatch]
    rw [gbmOuter_cons env (gbmConsts env) supported d0 drest 0 {} rfl]
    rw [gbmOuter_stop env (gbmConsts env) supported drest 1 _ hfm.2]
    rw [hfm.1]
    simp only [Nat.zero_add]

theorem C6_bestMatch_witness :
    (getBestMatch locEnvNone [str "de-DE", str "fr"] [str "fr-FR", str "de-de"]
        ∈ [str "fr-FR", str "de-de"]
      ∨ getBestMatch locEnvNone [str "de-DE", str "fr"] [str "fr-FR", str "de-de"]
        = [])
    ∧ (∀ d0 drest i, [str "de-DE", str "fr"] = d0 :: drest →
        firstMatchIdx d0 [str "fr-FR", str "de-de"] = some i →
        getBestMatch locEnvNone [str "de-DE", str "fr"] [str "fr-FR", str "de-de"]
          = [str "fr-FR", str "de-de"].getD i []) :=
  C6_bestMatch locEnvNone [str "de-DE", str "fr"] [str "fr-FR", str "de-de"]
    (fun _ _ => le_refl 0)

theorem C7_makeRelativeTo_witness :
    ((makeRelativeTo fsEnvTest (assignFullPath FileName.clear (str "/a/b.txt") .unix)
        (str "/a") .unix).1 = false
      ↔ isSameAs
          (makeAbsolute fsEnvTest (assignFullPath FileName.clear (str "/a/b.txt") .unix)
            (fsEnvTest.cwd []) .unix).volume
          (makeAbsolute fsEnvTest (dirName (str "/a") .unix)
            (fsEnvTest.cwd []) .unix).volume
          (decide (getFormat .unix = .unix)) = false)
    ∧ ((makeRelativeTo fsEnvTest (assignFullPath FileName.clear (str "/a/b.txt") .unix)
        (str "/a") .unix).1 = true →
        (makeRelativeTo fsEnvTest (assignFullPath FileName.clear (str "/a/b.txt") .unix)
          (str "/a") .unix).2.relative = true
          ∧ (makeRelativeTo fsEnvTest (assignFullPath FileName.clear (str "/a/b.txt") .unix)
            (str "/a") .unix).2.volume = []) :=
  C7_makeRelativeTo fsEnvTest (assignFullPath FileName.clear (str "/a/b.txt") .unix)
    (str "/a") .unix

/-! Lemmas on the string primitives used by `FromTag`, for arguments whose
separator structure is known. -/
lemma not_mem_of_all {p : Char → Bool} {s : Str} (h : s.all p = true)
    {c : Char} (hc : p c = false) : c ∉ s := by
  intro hm
  rw [List.all_eq_true] at h
  have := h c hm
  rw [hc] at this
  exact absurd this (by simp)

lemma findFrom0_eq_none {p : Char → Bool} {s : Str}
    (h : ∀ c ∈ s, p c = false) : findFrom p s 0 = none := by
  induction s with
  | nil => rfl
  | cons c cs ih =>
    simp only [findFrom]
    rw [h c (by simp), ih (fun d hd => h d (by simp [hd]))]
    rfl

lemma findFrom0_append {p : Char → Bool} {a b : Str} {c : Char}
    (ha : ∀ x ∈ a, p x = false) (hc : p c = true) :
    findFrom p (a ++ c :: b) 0 = some a.length := by
  induction a with
  | nil => simp [findFrom, hc]
  | cons x xs ih =>
    simp only [List.cons_append, findFrom, List.append_eq]
    rw [ha x (by simp), ih (fun d hd => ha d (by simp [hd]))]
    rfl

lemma beforeFirstC_no_occur {ch : Char} {s : Str} (h : ch ∉ s) :
    beforeFirstC ch s = (s, []) := by
  unfold beforeFirstC findFirst
  rw [findFrom0_eq_none (fun c hc => by
    simp only [beq_eq_false_iff_ne]
    exact fun he => h (he ▸ hc))]

lemma beforeFirstC_append {ch : Char} {a b : Str} (ha : ch ∉ a) :
    beforeFirstC ch (a ++ ch :: b) = (a, b) := by
  unfold beforeFirstC findFirst
  rw [findFrom0_append (fun c hc => by
      simp only [beq_eq_false_iff_ne]
      exact fun he => ha (he ▸ hc)) (by simp)]
  simp

lemma findLast_append_last {p : Char → Bool} {a b : Str} {c : Char}
    (hc : p c = true) (hb : ∀ x ∈ b, p x = false) :
    findLast p (a ++ c :: b) = some a.length := by
  induction a with
  | nil =>
    simp only [List.nil_append, findLast]
    rw [findLast_eq_none.mpr hb, hc]
    rfl
  | cons x xs ih =>
    simp only [List.cons_append, findLast, List.append_eq]
    rw [ih]
    simp

lemma beforeLastC_no_occur {ch : Char} {s : Str} (h : ch ∉ s) :
    beforeLastC ch s = ([], []) := by
  unfold beforeLastC
  rw [findLast_eq_none.mpr (fun c hc => by
    simp only [beq_eq_false_iff_ne]
    exact fun he => h (he ▸ hc))]

lemma beforeLastC_append {ch : Char} {a b : Str} (hb : ch ∉ b) :
    beforeLastC ch (a ++ ch :: b) = (a, b) := by
  unfold beforeLastC
  rw [findLast_append_last (by simp) (fun c hc => by
    simp only [beq_eq_false_iff_ne]
    exact fun he => hb (he ▸ hc))]
  simp

lemma replaceChar_append (a b : Char) (s t : Str) :
    replaceChar a b (s ++ t) = replaceChar a b s ++ replaceChar a b t := by
  simp [replaceChar]

lemma replaceChar_cons (a b c : Char) (s : Str) :
    replaceChar a b (c :: s) =
      (if c == a then b else c) :: replaceChar a b s := rfl

lemma replaceChar_no_occur {a : Char} (b : Char) {s : Str} (h : a ∉ s) :
    replaceChar a b s = s := by
  unfold replaceChar
  rw [List.map_congr_left (fun c hc => by
    rw [if_neg (by simp; exact fun he => h (he ▸ hc))])]
  exact List.map_id _

lemma splitFields_no_sep {p : Char → Bool} {s : Str}
    (h : ∀ c ∈ s, p c = false) : splitFields p s = [s] := by
  induction s with
  | nil => rfl
  | cons c cs ih =>
    simp only [splitFields]
    rw [h c (by simp), ih (fun d hd => h d (by simp [hd]))]
    simp

lemma splitFields_append {p : Char → Bool} {a b : Str} {c : Char}
    (ha : ∀ x ∈ a, p x = false) (hc : p c = true) :
    splitFields p (a ++ c :: b) = a :: splitFields p b := by
  induction a with
  | nil => simp [splitFields, hc]
  | cons x xs ih =>
    simp only [List.cons_append, splitFields, List.append_eq]
    rw [ha x (by simp), ih (fun d hd => ha d (by simp [hd]))]
    simp

lemma wxSplit_of_ne_nil {sep : Char} {s : Str} (h : s ≠ []) :
    wxSplit sep s = splitFields (· == sep) s := by
  simp [wxSplit, h]

lemma cmpNoCaseEq_false_of_length {s t : Str} (h : s.length ≠ t.length) :
    cmpNoCaseEq s t = false := by
  unfold cmpNoCaseEq
  rw [beq_eq_false_iff_ne]
  intro he
  apply h
  have := congrArg List.length he
  simpa [lowerS] using this

lemma checkLanguageVariant_id {st : LocaleIdent} (hm : st.modifier = [])
    (he : st.extension = []) : checkLanguageVariant st = st := by
  unfold checkLanguageVariant
  rw [hm, he]
  rfl

lemma fromTag_to_bcp47 (env : LocEnv) (tag : Str)
    (hdef : isDefaultCLocale tag = false)
    (hat : '@' ∉ tag) (hdot : '.' ∉ tag)
    (hFind : env.findLanguageInfo tag = none ∨ env.findLanguageInfo tag = some tag)
    (h1d : ¬(¬(beforeLastC '_' tag).1.isEmpty = true
      ∧ (beforeLastC '_' tag).2.length > 4)) :
    fromTag env tag = fromTagBcp47 LocaleIdent.empty tag tag := by
  simp only [fromTag, hdef, Bool.false_eq_true, if_false]
  rw [beforeFirstC_no_occur hat, beforeFirstC_no_occur hdot]
  simp only [List.isEmpty_nil, not_true, if_false, ite_false]
  rcases hFind with h | h <;>
    rw [h] <;>
    simp only [ite_self] <;>
    rw [if_neg (fun hx => h1d ⟨hx.1, hx.2.1⟩),
      if_neg (fun hx => h1d ⟨hx.1, hx.2.1⟩)]

lemma no_sep_all {s : Str} {ch : Char} (h : ch ∉ s) :
    ∀ c ∈ s, (c == ch) = false := fun c hc => by
  simp only [beq_eq_false_iff_ne]
  exact fun he => h (he ▸ hc)

lemma bcp47_single (tagMain tag lang : Str)
    (h : wxSplit '-' (replaceChar '_' '-' tagMain) = [lang]) :
    fromTagBcp47 LocaleIdent.empty tagMain tag =
      { LocaleIdent.empty with language := lowerS lang, tag := tag } := by
  unfold fromTagBcp47
  rw [h]

lemma bcp47_two_script (tagMain tag lang script : Str)
    (h : wxSplit '-' (replaceChar '_' '-' tagMain) = [lang, script])
    (hlang : lang.length = 2 ∨ lang.length = 3)
    (hscript : script.length = 4) :
    fromTagBcp47 LocaleIdent.empty tagMain tag =
      { LocaleIdent.empty with
          language := lowerS lang, script := capitalizeS script,
          tag := tag } := by
  unfold fromTagBcp47
  rw [h]
  simp only
  rw [if_pos hlang, List.dropWhile_cons, if_neg (by simp [hscript])]
  simp only
  rw [if_neg (by omega), if_pos hscript]
  unfold fromTagAfterFirstSubtag
  exact checkLanguageVariant_id rfl rfl

lemma bcp47_two_region (tagMain tag lang region : Str)
    (h : wxSplit '-' (replaceChar '_' '-' tagMain) = [lang, region])
    (hlang : lang.length = 2 ∨ lang.length = 3)
    (hregion : region.length = 2 ∨ region.length = 3)
    (hkeep : region.length = 2 ∨ (region.getD 0 ' ').isDigit) :
    fromTagBcp47 LocaleIdent.empty tagMain tag =
      { LocaleIdent.empty with
          language := lowerS lang, region := upperS region,
          tag := tag } := by
  unfold fromTagBcp47
  rw [h]
  simp only
  rw [if_pos hlang, List.dropWhile_cons, if_neg (by
    rcases hkeep with h2 | hd
    · simp [h2]
    · simp only [List.getD_eq_getElem?_getD] at hd
      simp [hd])]
  simp only
  rw [if_pos hregion]
  unfold fromTagAfterFirstSubtag
  exact checkLanguageVariant_id rfl rfl

lemma bcp47_three (tagMain tag lang script region : Str)
    (h : wxSplit '-' (replaceChar '_' '-' tagMain) = [lang, script, region])
    (hlang : lang.length = 2 ∨ lang.length = 3)
    (hscript : script.length = 4)
    (hregion : region.length = 2 ∨ region.length = 3) :
    fromTagBcp47 LocaleIdent.empty tagMain tag =
      { LocaleIdent.empty with
          language := lowerS lang, script := capitalizeS script,
          region := upperS region, tag := tag } := by
  unfold fromTagBcp47
  rw [h]
  simp only
  rw [if_pos hlang, List.dropWhile_cons, if_neg (by simp [hscript])]
  simp only
  rw [if_neg (by omega), if_pos hscript]
  unfold fromTagAfterFirstSubtag
  simp only
  rw [if_pos (by exact ⟨rfl, hregion⟩)]
  exact checkLanguageVariant_id rfl rfl

lemma sep_replace {sep : Char} (h : sep = '-' ∨ sep = '_') :
    (if sep == '_' then '-' else sep) = '-' := by
  rcases h with h | h <;> subst h <;> rfl

lemma not_mem_append_cons {x sep : Char} {a b : Str} (ha : x ∉ a)
    (hs : x ≠ sep) (hb : x ∉ b) : x ∉ a ++ sep :: b := by
  intro h
  rcases List.mem_append.mp h with h | h
  · exact ha h
  · rcases List.mem_cons.mp h with h | h
    · exact hs h
    · exact hb h

lemma split_shape1 {lang : Str} (hne : lang ≠ []) (hu : '_' ∉ lang)
    (hd : '-' ∉ lang) : wxSplit '-' (replaceChar '_' '-' lang) = [lang] := by
  rw [replaceChar_no_occur _ hu, wxSplit_of_ne_nil hne,
    splitFields_no_sep (no_sep_all hd)]

lemma split_shape2 {a b : Str} {sep : Char} (hsep : sep = '-' ∨ sep = '_')
    (hua : '_' ∉ a) (hda : '-' ∉ a) (hub : '_' ∉ b) (hdb : '-' ∉ b) :
    wxSplit '-' (replaceChar '_' '-' (a ++ sep :: b)) = [a, b] := by
  rw [replaceChar_append, replaceChar_cons, replaceChar_no_occur _ hua,
    replaceChar_no_occur _ hub, sep_replace hsep,
    wxSplit_of_ne_nil (by simp),
    splitFields_append (no_sep_all hda) (by rfl),
    splitFields_no_sep (no_sep_all hdb)]

lemma split_shape3 {a b c : Str} {s1 s2 : Char}
    (hs1 : s1 = '-' ∨ s1 = '_') (hs2 : s2 = '-' ∨ s2 = '_')
    (hua : '_' ∉ a) (hda : '-' ∉ a) (hub : '_' ∉ b) (hdb : '-' ∉ b)
    (huc : '_' ∉ c) (hdc : '-' ∉ c) :
    wxSplit '-' (replaceChar '_' '-' (a ++ s1 :: (b ++ s2 :: c))) =
      [a, b, c] := by
  rw [replaceChar_append, replaceChar_cons, replaceChar_append, replaceChar_cons,
    replaceChar_no_occur _ hua, replaceChar_no_occur _ hub,
    replaceChar_no_occur _ huc, sep_replace hs1, sep_replace hs2,
    wxSplit_of_ne_nil (by simp),
    splitFields_append (no_sep_all hda) (by rfl),
    splitFields_append (no_sep_all hdb) (by rfl),
    splitFields_no_sep (no_sep_all hdc)]

lemma isDefaultCLocale_false_of_length {s : Str} (h1 : s.length ≠ 1)
    (h5 : s.length ≠ 5) : isDefaultCLocale s = false := by
  unfold isDefaultCLocale
  rw [cmpNoCaseEq_false_of_length (by rw [show (str "C").length = 1 from rfl]; exact h1),
    cmpNoCaseEq_false_of_length (by rw [show (str "POSIX").length = 5 from rfl]; exact h5)]
  rfl

lemma isDefaultCLocale_false_sep {lang region : Str} {sep : Char}
    (hlang : lang.length = 2 ∨ lang.length = 3)
    (hregion : region.length = 2 ∨ region.length = 3)
    (hsep : sep = '-' ∨ sep = '_') :
    isDefaultCLocale (lang ++ sep :: region) = false := by
  by_cases h5 : (lang ++ sep :: region).length = 5
  · have hl2 : lang.length = 2 := by
      simp only [List.length_append, List.length_cons] at h5
      omega
    obtain ⟨x, y, rfl⟩ := List.length_eq_two.mp hl2
    unfold isDefaultCLocale
    rw [cmpNoCaseEq_false_of_length (by
      rw [show (str "C").length = 1 from rfl]
      simp only [List.length_append, List.length_cons]
      omega)]
    have hP : cmpNoCaseEq ([x, y] ++ sep :: region) (str "POSIX") = false := by
      unfold cmpNoCaseEq
      rw [beq_eq_false_iff_ne]
      intro he
      rw [show lowerS (str "POSIX") = ['p', 'o', 's', 'i', 'x'] from rfl] at he
      simp only [lowerS, List.map_append, List.map_cons, List.map_nil,
        List.cons_append, List.nil_append, List.cons.injEq] at he
      have h3 : Char.toLower sep = 's' := he.2.2.1
      rcases hsep with h | h <;> subst h <;> exact absurd h3 (by decide)
    rw [hP]
    rfl
  · exact isDefaultCLocale_false_of_length (by
      simp only [List.length_append, List.length_cons]
      omega) h5

/-- C2: `wxLocaleIdent::FromTag` on `language[sep]script[sep]region` tags with
`'-'`/`'_'` separators, a 2-3 letter language, a 4-letter script and a 2-3
character region stores the language lowercased, the script capitalized
and the region uppercased — amended in that a scriptless 3-letter
all-letter region is swallowed by the extlang skip (the region field stays
empty), and that a tag with both script and region, first separator `'_'`
and second separator `'-'` is mangled by the Windows sort-order step. -/
theorem C2_fromTag (env : LocEnv) (lang script region : Str) (sep1 sep2 : Char)
    (hFind : ∀ s, env.findLanguageInfo s = none ∨ env.findLanguageInfo s = some s)
    (hlang : (lang.length = 2 ∨ lang.length = 3) ∧ lang.all isAlphaCh)
    (hscript : script.length = 4 ∧ script.all isAlphaCh)
    (hregion : (region.length = 2 ∨ region.length = 3) ∧ region.all isAlnumCh)
    (hsep1 : sep1 = '-' ∨ sep1 = '_') (hsep2 : sep2 = '-' ∨ sep2 = '_') :
    fromTag env lang =
        { LocaleIdent.empty with language := lowerS lang, tag := lang }
    ∧ fromTag env (lang ++ sep1 :: script) =
        { LocaleIdent.empty with
            language := lowerS lang, script := capitalizeS script,
            tag := lang ++ sep1 :: script }
    ∧ (region.length = 2 ∨ (region.getD 0 ' ').isDigit →
        fromTag env (lang ++ sep1 :: region) =
          { LocaleIdent.empty with
              language := lowerS lang, region := upperS region,
              tag := lang ++ sep1 :: region })
    ∧ (¬(sep1 = '_' ∧ sep2 = '-') →
        fromTag env (lang ++ sep1 :: (script ++ sep2 :: region)) =
          { LocaleIdent.empty with
              language := lowerS lang, script := capitalizeS script,
              region := upperS region,
              tag := lang ++ sep1 :: (script ++ sep2 :: region) }) := by
  obtain ⟨hll, hla⟩ := hlang
  obtain ⟨hsl, hsa⟩ := hscript
  obtain ⟨hrl, hra⟩ := hregion
  have lu : '_' ∉ lang := not_mem_of_all hla (by decide)
  have ld : '-' ∉ lang := not_mem_of_all hla (by decide)
  have lat : '@' ∉ lang := not_mem_of_all hla (by decide)
  have ldot : '.' ∉ lang := not_mem_of_all hla (by decide)
  have su : '_' ∉ script := not_mem_of_all hsa (by decide)
  have sd : '-' ∉ script := not_mem_of_all hsa (by decide)
  have sat : '@' ∉ script := not_mem_of_all hsa (by decide)
  have sdot : '.' ∉ script := not_mem_of_all hsa (by decide)
  have ru : '_' ∉ region := not_mem_of_all hra (by decide)
  have rd : '-' ∉ region := not_mem_of_all hra (by decide)
  have rat : '@' ∉ region := not_mem_of_all hra (by decide)
  have rdot : '.' ∉ region := not_mem_of_all hra (by decide)
  have s1at : sep1 ≠ '@' := by rcases hsep1 with h | h <;> simp [h]
  have s1dot : sep1 ≠ '.' := by rcases hsep1 with h | h <;> simp [h]
  have s2at : sep2 ≠ '@' := by rcases hsep2 with h | h <;> simp [h]
  have s2dot : sep2 ≠ '.' := by rcases hsep2 with h | h <;> simp [h]
  have lne : lang ≠ [] := by
    intro h
    rw [h] at hll
    simp at hll
  refine ⟨?_, ?_, ?_, ?_⟩
  · -- bare language
    rw [fromTag_to_bcp47 env lang
      (isDefaultCLocale_false_of_length (by omega) (by omega)) lat ldot
      (hFind lang)
      (by rw [beforeLastC_no_occur lu]; simp)]
    exact bcp47_single _ _ _ (split_shape1 lne lu ld)
  · -- language and script
    have h1d : ¬(¬(beforeLastC '_' (lang ++ sep1 :: script)).1.isEmpty = true
        ∧ (beforeLastC '_' (lang ++ sep1 :: script)).2.length > 4) := by
      rcases hsep1 with h | h <;> subst h
      · rw [beforeLastC_no_occur (not_mem_append_cons lu (by decide) su)]
        simp
      · rw [beforeLastC_append su]
        intro h
        have h2 := h.2
        simp only at h2
        omega
    rw [fromTag_to_bcp47 env (lang ++ sep1 :: script)
      (isDefaultCLocale_false_of_length
        (by simp only [List.length_append, List.length_cons]; omega)
        (by simp only [List.length_append, List.length_cons]; omega))
      (not_mem_append_cons lat (Ne.symm s1at) sat)
      (not_mem_append_cons ldot (Ne.symm s1dot) sdot)
      (hFind _) h1d]
    exact bcp47_two_script _ _ _ _ (split_shape2 hsep1 lu ld su sd) hll hsl
  · -- language and region
    intro hkeep
    have h1d : ¬(¬(beforeLastC '_' (lang ++ sep1 :: region)).1.isEmpty = true
        ∧ (beforeLastC '_' (lang ++ sep1 :: region)).2.length > 4) := by
      rcases hsep1 with h | h <;> subst h
      · rw [beforeLastC_no_occur (not_mem_append_cons lu (by decide) ru)]
        simp
      · rw [beforeLastC_append ru]
        intro h
        have h2 := h.2
        simp only at h2
        omega
    rw [fromTag_to_bcp47 env (lang ++ sep1 :: region)
      (isDefaultCLocale_false_sep hll hrl hsep1)
      (not_mem_append_cons lat (Ne.symm s1at) rat)
      (not_mem_append_cons ldot (Ne.symm s1dot) rdot)
      (hFind _) h1d]
    exact bcp47_two_region _ _ _ _ (split_shape2 hsep1 lu ld ru rd) hll hrl hkeep
  · -- language, script and region
    intro hns
    have h1d : ¬(¬(beforeLastC '_' (lang ++ sep1 :: (script ++ sep2 :: region))).1.isEmpty = true
        ∧ (beforeLastC '_' (lang ++ sep1 :: (script ++ sep2 :: region))).2.length > 4) := by
      rcases hsep1 with h1 | h1 <;> rcases hsep2 with h2 | h2 <;> subst h1 <;> subst h2
      · rw [beforeLastC_no_occur (not_mem_append_cons lu (by decide)
          (not_mem_append_cons su (by decide) ru))]
        simp
      · rw [show lang ++ '-' :: (script ++ '_' :: region)
            = (lang ++ '-' :: script) ++ '_' :: region by simp,
          beforeLastC_append ru]
        intro h
        have h2 := h.2
        simp only at h2
        omega
      · exact absurd ⟨rfl, rfl⟩ hns
      · rw [show lang ++ '_' :: (script ++ '_' :: region)
            = (lang ++ '_' :: script) ++ '_' :: region by simp,
          beforeLastC_append ru]
        intro h
        have h2 := h.2
        simp only at h2
        omega
    rw [fromTag_to_bcp47 env (lang ++ sep1 :: (script ++ sep2 :: region))
      (isDefaultCLocale_false_of_length
        (by simp only [List.length_append, List.length_cons]; omega)
        (by simp only [List.length_append, List.length_cons]; omega))
      (not_mem_append_cons lat (Ne.symm s1at)
        (not_mem_append_cons sat (Ne.symm s2at) rat))
      (not_mem_append_cons ldot (Ne.symm s1dot)
        (not_mem_append_cons sdot (Ne.symm s2dot) rdot))
      (hFind _) h1d]
    exact bcp47_three _ _ _ _ _
      (split_shape3 hsep1 hsep2 lu ld su sd ru rd) hll hsl hrl

theorem C2_fromTag_counterexample :
    (fromTag locEnvNone (str "en_usa")).language = lowerS (str "en")
      ∧ (fromTag locEnvNone (str "en_usa")).region ≠ upperS (str "usa") := by
  decide

theorem C2_fromTag_witness :
    fromTag locEnvNone (str "en") =
        { LocaleIdent.empty with language := lowerS (str "en"), tag := str "en" }
    ∧ fromTag locEnvNone (str "en" ++ '-' :: str "Latn") =
        { LocaleIdent.empty with
            language := lowerS (str "en"), script := capitalizeS (str "Latn"),
            tag := str "en" ++ '-' :: str "Latn" }
    ∧ ((str "us").length = 2 ∨ ((str "us").getD 0 ' ').isDigit →
        fromTag locEnvNone (str "en" ++ '-' :: str "us") =
          { LocaleIdent.empty with
              language := lowerS (str "en"), region := upperS (str "us"),
              tag := str "en" ++ '-' :: str "us" })
    ∧ (¬('-' = '_' ∧ '-' = '-') →
        fromTag locEnvNone (str "en" ++ '-' :: (str "Latn" ++ '-' :: str "us")) =
          { LocaleIdent.empty with
              language := lowerS (str "en"), script := capitalizeS (str "Latn"),
              region := upperS (str "us"),
              tag := str "en" ++ '-' :: (str "Latn" ++ '-' :: str "us") }) :=
  C2_fromTag locEnvNone (str "en") (str "Latn") (str "us") '-' '-'
    (fun _ => Or.inl rfl) (by decide) (by decide) (by decide)
    (Or.inl rfl) (Or.inl rfl)
